/-
Verification of the Heterogeneous Audit-Finding Aggregation & Normalization
Engine implemented in `aci_proactive_audit.py`.

The Python functions under scrutiny are shallowly embedded below:
Python dictionaries become association lists (`List (String × α)`) whose
key order is insertion order and whose keys are unique, `d[k] = v` becomes
`dictSet`, `dict.update` becomes `dictUpdate`, fallible code returns
`Except`/`Option`, and `exit(1)` is modelled as the error branch of the
corresponding `Except`/`Option` result.  Python string primitives that do
not reduce in the kernel (`str.split`, `str.startswith`) are re-implemented
over character lists (`pySplitUnderscore`, `pyStartsWith`).
-/
import Mathlib

namespace AciAudit

/-! ## Generic helpers: Python dictionaries and strings -/

/-- The key list of a Python dictionary modelled as an association list
(keys in insertion order). -/
def assocKeys (d : List (String × α)) : List String :=
  d.map Prod.fst

/-- Python `d[k] = v`: if `k` is present its value is replaced in place
(keeping its position), otherwise `(k, v)` is appended. -/
def dictSet (d : List (String × α)) (k : String) (v : α) : List (String × α) :=
  match d with
  | [] => [(k, v)]
  | (k', v') :: rest => if k' = k then (k, v) :: rest else (k', v') :: dictSet rest k v

/-- Python `d.update(other)`: `d[k] = v` for every pair of `other` in order. -/
def dictUpdate (d other : List (String × α)) : List (String × α) :=
  other.foldl (fun acc kv => dictSet acc kv.1 kv.2) d

/-- Python `d[k]` / `k in d`: first value stored under `k`, if any. -/
def dictGet (d : List (String × α)) (k : String) : Option α :=
  match d with
  | [] => none
  | (k', v') :: rest => if k' = k then some v' else dictGet rest k

/-- Python `s.startswith(p)`. -/
def pyStartsWith (s p : String) : Bool :=
  p.toList.isPrefixOf s.toList

/-- Helper for `pySplitUnderscore`: split a character list at `'_'`,
accumulating the current chunk in reverse. -/
def splitUnderscoreAux : List Char → List Char → List (List Char)
  | [], acc => [acc.reverse]
  | c :: cs, acc =>
      if c = '_' then acc.reverse :: splitUnderscoreAux cs []
      else splitUnderscoreAux cs (c :: acc)

/-- Python `s.split("_")` (for the non-empty separator `"_"`). -/
def pySplitUnderscore (s : String) : List String :=
  (splitUnderscoreAux s.toList []).map (fun cs => String.mk cs)

/-! ## Schema Version Adapter: `vetr_check_dataformat` (source lines 513-606)

The function receives the top-level key list of a Python dictionary
(hence the keys are pairwise distinct) and classifies the export format.
`exit(1)` on an unrecognized format is modelled as `none`. -/

/-- The vetR 2.0.0 ("legacy") top-level key list (source lines 530-557). -/
def vetr_2_0_0_keys : List String :=
  [ "meta", "firmware", "admin", "fabricStats", "eol", "epLoopProtection",
    "rogueEPControl", "ipAging", "remoteEPlearning", "enforceSubnetCheck",
    "portTracking", "coopStrict", "bfdFabricInt", "domainValidation", "mcp",
    "dom", "multipod", "isisMetric", "tenantStats", "bdStats",
    "ingressPolicyEnforcement", "vzAny", "l3outRedundancy", "scale",
    "health", "ssd" ]

/-- The vetR 2.0.8 ("canonical") top-level key list (source lines 558-572). -/
def vetr_2_0_8_keys : List String :=
  [ "meta", "stats", "apic", "system", "faults", "tenant", "health",
    "fabric", "access", "admin", "apps", "scale", "eol" ]

/-- Result of `vetr_check_dataformat`. -/
inductive VetrFormat where
  | dataformat_2_0_0
  | dataformat_2_0_8
deriving DecidableEq, Repr

/-- `vetr_check_dataformat` (source lines 574-606): compare the key-list
length with each known key list, then require every key to belong to
that list; any mismatch exits (modelled `none`). -/
def vetr_check_dataformat (ks : List String) : Option VetrFormat :=
  if ks.length = vetr_2_0_8_keys.length then
    if ks.all (fun k => decide (k ∈ vetr_2_0_8_keys)) then
      some .dataformat_2_0_8
    else none
  else if ks.length = vetr_2_0_0_keys.length then
    if ks.all (fun k => decide (k ∈ vetr_2_0_0_keys)) then
      some .dataformat_2_0_0
    else none
  else none

/-! ## Schema migration: `vetr_convert_dataformat` (source lines 609-774)

The input is a Python dictionary of opaque JSON payloads; a payload is
either an opaque value (`leaf`) or a dictionary (`dict`) — the migration
iterates the children of a payload only for the four source keys whose
mapping-table entry is nested. -/

/-- A vetR payload value: opaque data, or a dictionary of payloads. -/
inductive VetrVal (α : Type) where
  | leaf (a : α)
  | dict (children : List (String × VetrVal α))

/-- A mapping-table entry (source lines 624-658): either a direct
`section_field` target string, or a nested table for a fixed subset of
child keys.  In the source every nested table value is a string, so the
`type(...) is not str` guard of lines 674-680 can never fire and is not
modelled. -/
inductive ConvTarget where
  | direct (target : String)
  | nested (table : List (String × String))

/-- Errors of the migration; each corresponds to a `logger.fatal` +
`exit(1)` site in the source. `notADict` models the `AttributeError` a
non-dictionary payload would raise under `.keys()` iteration. -/
inductive ConvError where
  | unmappedKey (k : String)
  | unmappedChildKey (k : String)
  | duplicatedData (k : String)
  | unsupportedNesting
  | notADict (k : String)

/-- The static vetR 2.0.0 → 2.0.8 mapping table (source lines 624-658).
`rogueEPControl` is assigned twice in the source (lines 633 and 638) with
the same value, so it appears once here. -/
def vetr_conversion_table : List (String × ConvTarget) :=
  [ ("meta", .direct "meta"),
    ("firmware", .direct "admin_firmwareVersion"),
    ("admin", .nested [("encryptedBackups", "system_encryptedBackups")]),
    ("fabricStats", .direct "stats_fabric"),
    ("eol", .nested [("apic", "eol_apic")]),
    ("epLoopProtection", .direct "system_epLoopProtection"),
    ("rogueEPControl", .direct "system_rogueEPControl"),
    ("ipAging", .direct "system_ipAging"),
    ("remoteEPlearning", .direct "system_remoteEPlearning"),
    ("enforceSubnetCheck", .direct "system_enforceSubnetCheck"),
    ("portTracking", .direct "system_portTracking"),
    ("coopStrict", .direct "fabric_coopStrict"),
    ("bfdFabricInt", .direct "fabric_bfdFabricInt"),
    ("domainValidation", .direct "system_domainValidation"),
    ("mcp", .nested [("interface", "access_mcpInterface"), ("global", "fabric_mcpGlobal")]),
    ("dom", .direct "fabric_dom"),
    ("multipod", .direct "stats_multipod"),
    ("isisMetric", .direct "fabric_isisMetric"),
    ("tenantStats", .direct "tenant_stats"),
    ("bdStats", .direct "tenant_bdStats"),
    ("ingressPolicyEnforcement", .direct "tenant_ingressPolicyEnforcement"),
    ("vzAny", .direct "tenant_vzAny"),
    ("l3outRedundancy", .direct "tenant_l3outRedundancy"),
    ("scale", .nested [("fabric", "scale_fabric"), ("guide", "scale_guide"), ("switch", "scale_switch")]),
    ("health", .direct "health"),
    ("ssd", .direct "faults_ssd") ]

/-- Write one value into the conversion output under a `section_field`
target (source lines 684-721 for the nested branch and 733-767 for the
direct branch; both branches run the identical logic).  Splitting the
target on `"_"` yields either one element (top-level write), two elements
(section/field write), or more (fatal).  Writing an already-populated
location is fatal. `logKey` is the key named in the source's log line. -/
def conv_assign (out : List (String × VetrVal α)) (target : String) (v : VetrVal α)
    (logKey : String) : Except ConvError (List (String × VetrVal α)) :=
  match pySplitUnderscore target with
  | [s] =>
      if s ∈ assocKeys out then .error (.duplicatedData logKey)
      else .ok (dictSet out s v)
  | [s, f] =>
      let out1 := if s ∈ assocKeys out then out else dictSet out s (.dict [])
      match out1.lookup s with
      | some (.dict fields) =>
          if f ∈ assocKeys fields then .error (.duplicatedData logKey)
          else .ok (dictSet out1 s (.dict (dictSet fields f v)))
      | _ => .error (.notADict s)
  | _ => .error .unsupportedNesting

/-- The child-key loop of the nested branch (source lines 670-729). -/
def conv_children (tbl : List (String × String)) :
    List (String × VetrVal α) → List (String × VetrVal α) →
    Except ConvError (List (String × VetrVal α))
  | [], out => .ok out
  | (ck, cv) :: rest, out =>
      match tbl.lookup ck with
      | none => .error (.unmappedChildKey ck)
      | some tgt =>
          match conv_assign out tgt cv ck with
          | .error e => .error e
          | .ok out1 => conv_children tbl rest out1

/-- The main key loop of `vetr_convert_dataformat` (source lines 661-771). -/
def vetr_convert_loop :
    List (String × VetrVal α) → List (String × VetrVal α) →
    Except ConvError (List (String × VetrVal α))
  | [], out => .ok out
  | (k, v) :: rest, out =>
      match vetr_conversion_table.lookup k with
      | none => .error (.unmappedKey k)
      | some (.nested tbl) =>
          match v with
          | .dict children =>
              match conv_children tbl children out with
              | .error e => .error e
              | .ok out1 => vetr_convert_loop rest out1
          | .leaf _ => .error (.notADict k)
      | some (.direct tgt) =>
          match conv_assign out tgt v k with
          | .error e => .error e
          | .ok out1 => vetr_convert_loop rest out1

/-- `vetr_convert_dataformat` (source lines 609-774): process the input
keys in order against the static mapping table, starting from an empty
output dictionary. -/
def vetr_convert_dataformat (vetr_data : List (String × VetrVal α)) :
    Except ConvError (List (String × VetrVal α)) :=
  vetr_convert_loop vetr_data []

/-- A full legacy (vetR 2.0.0) input: all 26 legacy top-level keys in
their documented order, with arbitrary payloads; the four nested keys
carry dictionaries with exactly the children the mapping table knows. -/
def vetr_legacy_input (m fw eb fs ea ep rep ia rel esc pt cs bfd dv mi mg dm mp im ts bs ipe vz l3 sf sg sw h sd : VetrVal α) :
    List (String × VetrVal α) :=
  [ ("meta", m),
    ("firmware", fw),
    ("admin", .dict [("encryptedBackups", eb)]),
    ("fabricStats", fs),
    ("eol", .dict [("apic", ea)]),
    ("epLoopProtection", ep),
    ("rogueEPControl", rep),
    ("ipAging", ia),
    ("remoteEPlearning", rel),
    ("enforceSubnetCheck", esc),
    ("portTracking", pt),
    ("coopStrict", cs),
    ("bfdFabricInt", bfd),
    ("domainValidation", dv),
    ("mcp", .dict [("interface", mi), ("global", mg)]),
    ("dom", dm),
    ("multipod", mp),
    ("isisMetric", im),
    ("tenantStats", ts),
    ("bdStats", bs),
    ("ingressPolicyEnforcement", ipe),
    ("vzAny", vz),
    ("l3outRedundancy", l3),
    ("scale", .dict [("fabric", sf), ("guide", sg), ("switch", sw)]),
    ("health", h),
    ("ssd", sd) ]

/-- The migration result for `vetr_legacy_input`: every legacy payload
sits at the canonical location the static table maps it to. -/
def vetr_legacy_expected (m fw eb fs ea ep rep ia rel esc pt cs bfd dv mi mg dm mp im ts bs ipe vz l3 sf sg sw h sd : VetrVal α) :
    List (String × VetrVal α) :=
  [ ("meta", m),
    ("admin", .dict [("firmwareVersion", fw)]),
    ("system", .dict [("encryptedBackups", eb), ("epLoopProtection", ep),
      ("rogueEPControl", rep), ("ipAging", ia), ("remoteEPlearning", rel),
      ("enforceSubnetCheck", esc), ("portTracking", pt), ("domainValidation", dv)]),
    ("stats", .dict [("fabric", fs), ("multipod", mp)]),
    ("eol", .dict [("apic", ea)]),
    ("fabric", .dict [("coopStrict", cs), ("bfdFabricInt", bfd),
      ("mcpGlobal", mg), ("dom", dm), ("isisMetric", im)]),
    ("access", .dict [("mcpInterface", mi)]),
    ("tenant", .dict [("stats", ts), ("bdStats", bs),
      ("ingressPolicyEnforcement", ipe), ("vzAny", vz), ("l3outRedundancy", l3)]),
    ("scale", .dict [("fabric", sf), ("guide", sg), ("switch", sw)]),
    ("health", h),
    ("faults", .dict [("ssd", sd)]) ]

/-- Field lookup through a section of the conversion output: the value
stored at `out[s][f]`, if `out[s]` is a dictionary containing `f`. -/
def vetr_section_field (out : List (String × VetrVal α)) (s f : String) :
    Option (VetrVal α) :=
  match dictGet out s with
  | some (.dict fields) => dictGet fields f
  | _ => none

/-- A parsed write location of the migration: a top-level entry or a
section/field slot, the two shapes a `section_field` target string can
take. -/
inductive WLoc where
  | top (s : String)
  | fld (s f : String)

/-- The top-level output key a write location touches. -/
def wsec : WLoc → String
  | .top s => s
  | .fld s _ => s

/-- Parse a `section_field` target string into a write location. -/
def parseLoc (target : String) : Option WLoc :=
  match pySplitUnderscore target with
  | [s] => some (.top s)
  | [s, f] => some (.fld s f)
  | _ => none

/-- `conv_assign` with the target string already parsed. -/
def applyW (out : List (String × VetrVal α)) (loc : WLoc) (v : VetrVal α)
    (logKey : String) : Except ConvError (List (String × VetrVal α)) :=
  match loc with
  | .top s =>
      if s ∈ assocKeys out then .error (.duplicatedData logKey)
      else .ok (dictSet out s v)
  | .fld s f =>
      let out1 := if s ∈ assocKeys out then out else dictSet out s (.dict [])
      match out1.lookup s with
      | some (.dict fields) =>
          if f ∈ assocKeys fields then .error (.duplicatedData logKey)
          else .ok (dictSet out1 s (.dict (dictSet fields f v)))
      | _ => .error (.notADict s)

/-- Run a list of parsed writes in order, stopping at the first error. -/
def applyWs : List (WLoc × VetrVal α × String) → List (String × VetrVal α) →
    Except ConvError (List (String × VetrVal α))
  | [], out => .ok out
  | (loc, v, lk) :: rest, out =>
      match applyW out loc v lk with
      | Except.error e => Except.error e
      | Except.ok out1 => applyWs rest out1

/-- Read the value stored at a write location. -/
def wGet (out : List (String × VetrVal α)) : WLoc → Option (VetrVal α)
  | .top s => dictGet out s
  | .fld s f => vetr_section_field out s f

/-- A write location is still free in `out` (so a write to it succeeds). -/
def locFree (out : List (String × VetrVal α)) : WLoc → Prop
  | .top s => s ∉ assocKeys out
  | .fld s f =>
      match dictGet out s with
      | none => True
      | some (.dict fields) => f ∉ assocKeys fields
      | some (.leaf _) => False

/-- Two write locations that can never clash: they either touch different
sections, or different fields of the same section. -/
def compat : WLoc → WLoc → Prop
  | .top s, .top t => s ≠ t
  | .top s, .fld t _ => s ≠ t
  | .fld s _, .top t => s ≠ t
  | .fld s f, .fld t g => s ≠ t ∨ f ≠ g

instance : DecidableRel compat := fun a b =>
  match a, b with
  | .top s, .top t => inferInstanceAs (Decidable (s ≠ t))
  | .top s, .fld t _ => inferInstanceAs (Decidable (s ≠ t))
  | .fld s _, .top t => inferInstanceAs (Decidable (s ≠ t))
  | .fld s f, .fld t g => inferInstanceAs (Decidable (s ≠ t ∨ f ≠ g))

/-- The parsed writes a nested key's child dictionary produces, in child
order. -/
def childWrites (tbl : List (String × String)) (cs : List (String × VetrVal α)) :
    List (WLoc × VetrVal α × String) :=
  cs.filterMap (fun p => ((tbl.lookup p.1).bind parseLoc).map (fun loc => (loc, p.2, p.1)))

/-- The parsed writes one input key produces under the conversion table. -/
def dWrites (p : String × VetrVal α) : List (WLoc × VetrVal α × String) :=
  match vetr_conversion_table.lookup p.1 with
  | some (.direct tgt) =>
      match parseLoc tgt with
      | some loc => [(loc, p.2, p.1)]
      | none => []
  | some (.nested tbl) =>
      match p.2 with
      | .dict cs => childWrites tbl cs
      | .leaf _ => []
  | none => []

/-- All parsed writes of an input, in input order. -/
def inputWrites (d : List (String × VetrVal α)) : List (WLoc × VetrVal α × String) :=
  (d.map dWrites).flatten

/-- An input key the migration can process without an error at the
table-lookup level: it is in the table, and a nested key carries a
dictionary all of whose children the nested table knows. -/
def keyConforms (p : String × VetrVal α) : Prop :=
  match vetr_conversion_table.lookup p.1 with
  | some (.direct tgt) => (parseLoc tgt).isSome = true
  | some (.nested tbl) =>
      match p.2 with
      | .dict cs => ∀ c ∈ cs, ∃ tgt, tbl.lookup c.1 = some tgt ∧ (parseLoc tgt).isSome = true
      | .leaf _ => False
  | none => False

/-- A legacy input in the documented key order, with the payload of each
key given by a value function (children of the four nested keys in the
table's child order). -/
def vetr_canonical_input (val adVal eolVal mcpVal scaleVal : String → VetrVal α) :
    List (String × VetrVal α) :=
  [ ("meta", val "meta"),
    ("firmware", val "firmware"),
    ("admin", .dict [("encryptedBackups", adVal "encryptedBackups")]),
    ("fabricStats", val "fabricStats"),
    ("eol", .dict [("apic", eolVal "apic")]),
    ("epLoopProtection", val "epLoopProtection"),
    ("rogueEPControl", val "rogueEPControl"),
    ("ipAging", val "ipAging"),
    ("remoteEPlearning", val "remoteEPlearning"),
    ("enforceSubnetCheck", val "enforceSubnetCheck"),
    ("portTracking", val "portTracking"),
    ("coopStrict", val "coopStrict"),
    ("bfdFabricInt", val "bfdFabricInt"),
    ("domainValidation", val "domainValidation"),
    ("mcp", .dict [("interface", mcpVal "interface"), ("global", mcpVal "global")]),
    ("dom", val "dom"),
    ("multipod", val "multipod"),
    ("isisMetric", val "isisMetric"),
    ("tenantStats", val "tenantStats"),
    ("bdStats", val "bdStats"),
    ("ingressPolicyEnforcement", val "ingressPolicyEnforcement"),
    ("vzAny", val "vzAny"),
    ("l3outRedundancy", val "l3outRedundancy"),
    ("scale", .dict [("fabric", scaleVal "fabric"), ("guide", scaleVal "guide"), ("switch", scaleVal "switch")]),
    ("health", val "health"),
    ("ssd", val "ssd") ]

/-- The 29 write locations the static mapping table targets, in the
documented key order. -/
def vetr_canonical_locs : List WLoc :=
  [ .top "meta",
    .fld "admin" "firmwareVersion",
    .fld "system" "encryptedBackups",
    .fld "stats" "fabric",
    .fld "eol" "apic",
    .fld "system" "epLoopProtection",
    .fld "system" "rogueEPControl",
    .fld "system" "ipAging",
    .fld "system" "remoteEPlearning",
    .fld "system" "enforceSubnetCheck",
    .fld "system" "portTracking",
    .fld "fabric" "coopStrict",
    .fld "fabric" "bfdFabricInt",
    .fld "system" "domainValidation",
    .fld "access" "mcpInterface",
    .fld "fabric" "mcpGlobal",
    .fld "fabric" "dom",
    .fld "stats" "multipod",
    .fld "fabric" "isisMetric",
    .fld "tenant" "stats",
    .fld "tenant" "bdStats",
    .fld "tenant" "ingressPolicyEnforcement",
    .fld "tenant" "vzAny",
    .fld "tenant" "l3outRedundancy",
    .fld "scale" "fabric",
    .fld "scale" "guide",
    .fld "scale" "switch",
    .top "health",
    .fld "faults" "ssd" ]

/-- The 11 top-level sections the mapping table ever populates. -/
def vetr_out_sections : List String :=
  [ "meta", "admin", "system", "stats", "eol", "fabric", "access",
    "tenant", "scale", "health", "faults" ]

def c1_wit_order : List String :=
  [ "ssd", "health", "scale", "l3outRedundancy", "vzAny", "ingressPolicyEnforcement",
    "bdStats", "tenantStats", "isisMetric", "multipod", "dom", "mcp",
    "domainValidation", "bfdFabricInt", "coopStrict", "portTracking",
    "enforceSubnetCheck", "remoteEPlearning", "ipAging", "rogueEPControl",
    "epLoopProtection", "eol", "fabricStats", "admin", "firmware", "meta" ]

def c1_wit_adVal : String → VetrVal Nat := fun _ => .leaf 2

def c1_wit_eolVal : String → VetrVal Nat := fun _ => .leaf 4

def c1_wit_mcpVal : String → VetrVal Nat := fun c =>
  if c = "interface" then .leaf 14 else .leaf 15

def c1_wit_scaleVal : String → VetrVal Nat := fun c =>
  if c = "fabric" then .leaf 23 else if c = "guide" then .leaf 24 else .leaf 25

def c1_wit_val : String → VetrVal Nat := fun k =>
  if k = "admin" then .dict (["encryptedBackups"].map (fun c => (c, c1_wit_adVal c)))
  else if k = "eol" then .dict (["apic"].map (fun c => (c, c1_wit_eolVal c)))
  else if k = "mcp" then .dict (["global", "interface"].map (fun c => (c, c1_wit_mcpVal c)))
  else if k = "scale" then
    .dict (["switch", "fabric", "guide"].map (fun c => (c, c1_wit_scaleVal c)))
  else .leaf 0

/-! ## Finding merge (source lines 3033-3083)

`generate_audit_report` combines the per-source finding dictionaries with
`dict.copy()` followed by `dict.update(...)` and then writes the three
enablement flags.  A merged value is either such a flag or a finding
record. -/

/-- A value of the combined-findings dictionary. -/
inductive MergeVal (α : Type) where
  | flag (b : Bool)
  | record (a : α)
deriving DecidableEq, Repr

/-- The vetR+NAE merge branch (source lines 3046-3051):
`combined = vetR_audit_output.copy(); combined.update(nae_audit_output)`
followed by the three enablement-flag writes. -/
def combine_findings_vetr_nae (vetr nae : List (String × MergeVal α)) :
    List (String × MergeVal α) :=
  let c := dictUpdate vetr nae
  let c := dictSet c "vetR_analysis_enabled" (.flag true)
  let c := dictSet c "nae_analysis_enabled" (.flag true)
  dictSet c "ssd_analysis_enabled" (.flag false)

/-! ## Variant-B (ndi) job monitor: `nae_monitor_analysis` (source lines 1538-1587)

One poll of the job listing either misses the submitted job (`none`) or
observes its `operSt` status (`some s`).  Each iteration of the
`while True` loop is one `ndi_monitor_step`; the source initializes
`__retry_count = 0`, `__max_retry_count = 6` and — crucially — never
increments `__retry_count`, which `ndi_monitor_step` reproduces by
passing `retryCount` through unchanged on the not-found branch. -/

/-- Outcome of one iteration of the ndi monitoring loop. -/
inductive NdiStep where
  | continueLoop (retryCount : Nat)
  | completed
  | fatalNotFound
  | fatalStatus (s : String)
deriving DecidableEq, Repr

/-- `__max_retry_count` (source line 1549). -/
def ndi_max_retry_count : Nat := 6

/-- One iteration of the ndi `while True` loop (source lines 1552-1585). -/
def ndi_monitor_step (retryCount : Nat) (poll : Option String) : NdiStep :=
  match poll with
  | none =>
      if retryCount < ndi_max_retry_count then .continueLoop retryCount
      else .fatalNotFound
  | some status =>
      if status = "QUEUED" then .continueLoop retryCount
      else if status = "SCHEDULED" then .continueLoop retryCount
      else if status = "RUNNING" then .continueLoop retryCount
      else if status = "COMPLETE" then .completed
      else .fatalStatus status

/-- Observable outcome of running the monitor against a finite trace of
poll results; `stillPolling` means the loop was still running when the
trace ended. -/
inductive NdiOutcome where
  | success
  | fatalNotFound
  | fatalStatus (s : String)
  | stillPolling (retryCount : Nat)
deriving DecidableEq, Repr

/-- Run the ndi monitoring loop over a trace of poll results. -/
def ndi_monitor_run : Nat → List (Option String) → NdiOutcome
  | rc, [] => .stillPolling rc
  | rc, p :: ps =>
      match ndi_monitor_step rc p with
      | .continueLoop rc1 => ndi_monitor_run rc1 ps
      | .completed => .success
      | .fatalNotFound => .fatalNotFound
      | .fatalStatus s => .fatalStatus s

/-! ## Variant-B paginated retrieval:
`ndi_get_smart_events_by_fabric_name` (source lines 2154-2234)

Entries are modelled by opaque identifiers; `server off` is the entry
list the backend returns for query offset `off`.  The page size
`__max_response_count` is 100.  In the source the statement
`__current_page_count = __current_page_count + 1` (line 2227) sits
*inside* the `for __event in __response["entries"]` loop (lines
2211-2227), so fetching one page advances the page counter by the number
of entries on that page; the loop body below reproduces this with
`currentPage + entries.length`. -/

/-- Python `-(-a // b)` (ceiling division via floor division). -/
def pyCeilDiv (a b : Int) : Int := -((-a).fdiv b)

/-- The `while __current_page_count < __total_page_count` loop (source
lines 2199-2234), returning the requested offsets and the entries
collected; `none` means the loop was still running after `fuel`
iterations (the loop does not terminate when a page yields no entries,
since the counter then never advances). -/
def ndi_events_page_loop (server : Nat → List Nat) (totalPageCount : Nat) :
    Nat → Nat → List Nat → List Nat → Option (List Nat × List Nat)
  | 0, _, _, _ => none
  | fuel + 1, currentPage, offsets, events =>
      if currentPage < totalPageCount then
        ndi_events_page_loop server totalPageCount fuel
          (currentPage + (server (currentPage * 100)).length)
          (offsets ++ [currentPage * 100])
          (events ++ server (currentPage * 100))
      else some (offsets, events)

/-- The summary-pagination skeleton of
`ndi_get_smart_events_by_fabric_name`: request offset 0; if the response
lacks `totalResultsCount` return empty output; otherwise compute
`__total_page_count = -(-totalResultsCount // 100)` (source line 2159)
and fetch further pages while `__current_page_count < __total_page_count`
starting from page 1 (source lines 2199-2234). -/
def ndi_get_smart_events_by_fabric_name (totalResultsCount : Option Nat)
    (server : Nat → List Nat) (fuel : Nat) : Option (List Nat × List Nat) :=
  match totalResultsCount with
  | none => some ([0], [])
  | some t =>
      let totalPageCount : Int := pyCeilDiv (t : Int) 100
      if totalPageCount > 1 then
        ndi_events_page_loop server totalPageCount.toNat fuel 1 [0] (server 0)
      else some ([0], server 0)

/-- Backend model for the C5 failing input: 250 declared results served
in pages of at most 100 entries, entry `i` being the identifier `i`. -/
def c5_server (off : Nat) : List Nat :=
  if off < 250 then List.range' off (min 100 (250 - off)) else []

/-! ## Threshold-Based Text Report Analyzer: `ssd_analyze_output`
(source lines 2511-2707)

The source iterates the report's lines (the caller reads the file with
`readlines`, line 447), strips each line and classifies it: lines
starting with `Node:` finalize the previous node and, when they match
`^Node: (\d+)$`, open a new per-node accumulator; lines starting with
`Model:` and matching `^Model: (.+)$` set the accumulator's model;
blank lines are skipped; remaining lines matching
`^(.+)\s+\((\d+)\):.+\((.+)%\)$` store a usage entry under the key
`type_<id>`.  The lexical layer (the regexes and `float(...)`) is
abstracted into the `SsdLine` constructors below in that classification
order; the usage percentage is a rational.  A stored usage entry's
`description` and `id` components feed only `logger.debug` calls, so an
entry is modelled by its key and usage value alone. -/

/-- One stripped report line, pre-classified. `node id` is a line
matching `^Node: (\d+)$`; `nodeNoise` starts with `Node:` without
matching that regex (it still finalizes the previous node, leaving no
accumulator); `model` matches `^Model: (.+)$`; `metric` is a usage line;
`blank` is an empty stripped line; `other` is any remaining line (all are
no-ops). -/
inductive SsdLine where
  | node (id : String)
  | nodeNoise
  | model (m : String)
  | blank
  | metric (descr : String) (id : String) (usage : ℚ)
  | other
deriving DecidableEq, Repr

/-- The per-node accumulator `__ssd_usage`: the `node` and `model`
entries, plus the `type_<id>` usage entries in insertion order. -/
structure SsdUsage where
  node : String
  model : Option String
  metrics : List (String × ℚ)
deriving DecidableEq, Repr

/-- The aggregate `__ssd_action` record (source lines 2532-2536). -/
structure SsdAction where
  actionRecommended : Bool
  critical : List String
  major : List String
deriving DecidableEq, Repr

/-- `__ssd_thresholds_major` (source line 2525). -/
def ssd_thresholds_major : ℚ := 80

/-- `__ssd_thresholds_critical` (source line 2526). -/
def ssd_thresholds_critical : ℚ := 90

/-- The initial aggregate record (source lines 2532-2536). -/
def ssd_init_action : SsdAction :=
  { actionRecommended := false, critical := [], major := [] }

/-- Threshold evaluation of one usage entry (source lines 2566-2603; the
identical flush copy is lines 2665-2699): the critical check runs first
and appends the node to the critical list if absent; the major check then
appends the node to the major list only if it is in neither list — the
membership test observes the critical list as just updated. -/
def ssd_process_entry (node : String) (usage : ℚ) (act : SsdAction) : SsdAction :=
  let act1 :=
    if usage ≥ ssd_thresholds_critical then
      { act with
        actionRecommended := true
        critical :=
          if node ∈ act.critical then act.critical else act.critical ++ [node] }
    else act
  if usage ≥ ssd_thresholds_major then
    { act1 with
      actionRecommended := true
      major :=
        if node ∉ act1.major ∧ node ∉ act1.critical then act1.major ++ [node]
        else act1.major }
  else act1

/-- Finalize one node's accumulator: evaluate each stored usage entry in
insertion order (source lines 2549-2603; the `node` and `model` entries
are kept apart from `metrics` and hence skipped). -/
def ssd_finalize (u : SsdUsage) (act : SsdAction) : SsdAction :=
  u.metrics.foldl (fun a kv => ssd_process_entry u.node kv.2 a) act

/-- One line of the parsing loop (source lines 2541-2644). -/
def ssd_step (st : Option SsdUsage × SsdAction) (line : SsdLine) :
    Option SsdUsage × SsdAction :=
  match line with
  | .node id =>
      let act := match st.1 with | some u => ssd_finalize u st.2 | none => st.2
      (some { node := "node-" ++ id, model := none, metrics := [] }, act)
  | .nodeNoise =>
      let act := match st.1 with | some u => ssd_finalize u st.2 | none => st.2
      (none, act)
  | .model m =>
      (match st.1 with | some u => some { u with model := some m } | none => none, st.2)
  | .blank => st
  | .metric _d id usage =>
      (match st.1 with
       | some u => some { u with metrics := dictSet u.metrics ("type_" ++ id) usage }
       | none => none, st.2)
  | .other => st

/-- The aggregate record after the whole report: run the line loop from
the empty state, then flush the last node (source lines 2646-2699). -/
def ssd_final_action (lines : List SsdLine) : SsdAction :=
  let st := lines.foldl ssd_step (none, ssd_init_action)
  match st.1 with | some u => ssd_finalize u st.2 | none => st.2

/-- `ssd_analyze_output` (source lines 2511-2707): the output dictionary
holds the single `ssd_faults` finding when any threshold was crossed,
and is empty otherwise (source lines 2702-2707). -/
def ssd_analyze_output (lines : List SsdLine) : List (String × SsdAction) :=
  let act := ssd_final_action lines
  if act.actionRecommended then [("ssd_faults", act)] else []

/-- The usage values of all metric lines of a report. -/
def ssd_metric_usages : List SsdLine → List ℚ
  | [] => []
  | .metric _ _ u :: rest => u :: ssd_metric_usages rest
  | _ :: rest => ssd_metric_usages rest

/-- The metric entries pending in the accumulator, if any. -/
def optMetrics : Option SsdUsage → List (String × ℚ)
  | some u => u.metrics
  | none => []

/-- The spec's two-node example report:
`Node: 101 / Model: X / CPU (1): used (95%)` then
`Node: 102 / Model: Y / CPU (1): used (50%)`. -/
def ssd_example_input : List SsdLine :=
  [ .node "101", .model "X", .metric "CPU" "1" 95, .blank,
    .node "102", .model "Y", .metric "CPU" "1" 50 ]

/-! ## Recommendation Path Extractor:
`get_nested_dict_entries_containing_key` (source lines 347-375)

A Python object is a string, some other atom, a dictionary or a
sequence; dictionaries and sequences are given by mutually inductive
spine types so the traversal is structurally recursive.  The source's
generator shares one mutable path list: it appends the dictionary key (a
string object) before descending into a dict child (line 366), appends
the *sequence element itself* — not its index — before descending into it
(line 371), and the single `pop` at generator exhaustion (lines 374-375)
undoes the append performed by the caller.  Pushes and pops therefore
balance, and the list observed at each `yield` equals the snapshot path
passed down explicitly below. -/

mutual
inductive PyVal where
  | str (s : String)
  | atom (n : Nat)
  | dict (fields : PyFields)
  | list (elems : PyElems)
deriving DecidableEq

inductive PyFields where
  | nil
  | cons (k : String) (v : PyVal) (rest : PyFields)
deriving DecidableEq

inductive PyElems where
  | nil
  | cons (v : PyVal) (rest : PyElems)
deriving DecidableEq
end

/-- Python `__key in __var.keys()` (source line 361). -/
def PyFields.hasKey : PyFields → String → Bool
  | .nil, _ => false
  | .cons k _ rest, key => decide (k = key) || rest.hasKey key

mutual
/-- `get_nested_dict_entries_containing_key` (source lines 347-375), with
the shared mutable path buffer replaced by an explicit snapshot path: a
dictionary containing the key yields `(path, dict)` and is not descended
into; otherwise its dict/list children are visited with their key pushed;
a sequence visits every element with the element itself pushed; other
values yield nothing. -/
def get_nested_dict_entries_containing_key (v : PyVal) (key : String)
    (path : List PyVal) : List (List PyVal × PyVal) :=
  match v with
  | .dict fields =>
      if fields.hasKey key then [(path, .dict fields)]
      else getNestedFields fields key path
  | .list elems => getNestedElems elems key path
  | _ => []

/-- The `for k, v in __var.items()` loop (source lines 364-367): only
dict or list children are descended into. -/
def getNestedFields (fs : PyFields) (key : String) (path : List PyVal) :
    List (List PyVal × PyVal) :=
  match fs with
  | .nil => []
  | .cons k v rest =>
      (match v with
       | .dict _ => get_nested_dict_entries_containing_key v key (path ++ [.str k])
       | .list _ => get_nested_dict_entries_containing_key v key (path ++ [.str k])
       | _ => []) ++ getNestedFields rest key path

/-- The `for d in __var` loop (source lines 369-372). -/
def getNestedElems (es : PyElems) (key : String) (path : List PyVal) :
    List (List PyVal × PyVal) :=
  match es with
  | .nil => []
  | .cons d rest =>
      get_nested_dict_entries_containing_key d key (path ++ [d])
        ++ getNestedElems rest key path
end

mutual
/-- Does the marker key occur in any nested mapping of the structure? -/
def pyvalHasKeyDeep : PyVal → String → Bool
  | .dict fields, key => fields.hasKey key || fieldsHasKeyDeep fields key
  | .list elems, key => elemsHasKeyDeep elems key
  | _, _ => false

def fieldsHasKeyDeep : PyFields → String → Bool
  | .nil, _ => false
  | .cons _ v rest, key => pyvalHasKeyDeep v key || fieldsHasKeyDeep rest key

def elemsHasKeyDeep : PyElems → String → Bool
  | .nil, _ => false
  | .cons v rest, key => pyvalHasKeyDeep v key || elemsHasKeyDeep rest key
end

mutual
/-- The number of maximal marker-carrying branches: a mapping directly
containing the key counts once (nothing inside it is counted); otherwise
the counts of all children are summed. -/
def numMatches : PyVal → String → Nat
  | .dict fields, key => if fields.hasKey key then 1 else fieldsNumMatches fields key
  | .list elems, key => elemsNumMatches elems key
  | _, _ => 0

def fieldsNumMatches : PyFields → String → Nat
  | .nil, _ => 0
  | .cons _ v rest, key =>
      (match v with
       | .dict _ => numMatches v key
       | .list _ => numMatches v key
       | _ => 0) + fieldsNumMatches rest key

def elemsNumMatches : PyElems → String → Nat
  | .nil, _ => 0
  | .cons d rest, key => numMatches d key + elemsNumMatches rest key
end

/-- The keys of a dictionary spine, in order. -/
def fieldsKeys : PyFields → List String
  | .nil => []
  | .cons k _ rest => k :: fieldsKeys rest

mutual
/-- Well-formedness of a Python object: every nested dictionary has
pairwise-distinct keys (always true of actual Python dictionaries). -/
def pyvalWF : PyVal → Bool
  | .dict fields => decide (fieldsKeys fields).Nodup && fieldsWF fields
  | .list elems => elemsWF elems
  | _ => true

def fieldsWF : PyFields → Bool
  | .nil => true
  | .cons _ v rest => pyvalWF v && fieldsWF rest

def elemsWF : PyElems → Bool
  | .nil => true
  | .cons v rest => pyvalWF v && elemsWF rest
end

/-- Does a value directly contain the marker key (i.e. is it a matched
record)? -/
def directlyHasKey : PyVal → String → Bool
  | .dict fields, key => fields.hasKey key
  | _, _ => false

/-- `(k, v)` is an entry of the dictionary spine. -/
inductive FieldsEntry : PyFields → String → PyVal → Prop where
  | head (k : String) (v : PyVal) (rest : PyFields) : FieldsEntry (.cons k v rest) k v
  | tail {fs : PyFields} {k : String} {v : PyVal} (k' : String) (v' : PyVal) :
      FieldsEntry fs k v → FieldsEntry (.cons k' v' fs) k v

/-- `v` is an element of the sequence spine. -/
inductive ElemsMem : PyElems → PyVal → Prop where
  | head (v : PyVal) (rest : PyElems) : ElemsMem (.cons v rest) v
  | tail {es : PyElems} {v : PyVal} (v' : PyVal) :
      ElemsMem es v → ElemsMem (.cons v' es) v

/-- The path `path` leads from the root `v` down to `target`: each
component names a dictionary entry (by its key string, as the source
pushes the key object) or is itself the visited sequence element. -/
inductive Reaches : PyVal → List PyVal → PyVal → Prop where
  | refl (v : PyVal) : Reaches v [] v
  | intoDict {fields : PyFields} {k : String} {child target : PyVal} {rest : List PyVal} :
      FieldsEntry fields k child → Reaches child rest target →
      Reaches (.dict fields) (PyVal.str k :: rest) target
  | intoList {elems : PyElems} {d target : PyVal} {rest : List PyVal} :
      ElemsMem elems d → Reaches d rest target →
      Reaches (.list elems) (d :: rest) target

/-! ## Findings summary table: `create_findings_summary_table`
(source lines 2739-2873)

A finding record, as produced by `vetr_render_actions` (source lines
834-895) and its NAE/NDI counterpart, carries an optional `error` string,
optional template metadata and the rendered content's markdown headlines
(the matches of `#+\s(.+)\n`, of which only the first is used).  The
`metadata` key being absent and being `None` both skip the entry (the
source catches the `KeyError`), so they are modelled jointly by
`none`. -/

/-- Template metadata: each key may be absent (`KeyError` in the source
defaults the field to `"-"`). -/
structure TemplateMeta where
  severity : Option String
  affected_count : Option String
deriving DecidableEq, Repr

/-- One finding record of the combined findings dictionary. -/
structure Finding where
  error : Option String
  metadata : Option TemplateMeta
  headlines : List String
deriving DecidableEq, Repr

/-- One row of the summary table (source lines 2854-2860). -/
structure SummaryRow where
  name : String
  headline : String
  tool_source : String
  priority : String
  affected_count : String
deriving DecidableEq, Repr

/-- The four failure-category buckets stored under `main_document`;
`none` models the bucket key not existing yet. -/
structure MainDoc where
  missing_templates : Option (List String)
  templates_missing_ndi_support : Option (List String)
  syntax_error_templates : Option (List String)
  undefined_error_templates : Option (List String)
deriving DecidableEq, Repr

/-- `main_document` before any bucket is created. -/
def main_document_empty : MainDoc :=
  { missing_templates := none, templates_missing_ndi_support := none,
    syntax_error_templates := none, undefined_error_templates := none }

/-- Create-if-absent followed by append (source lines 2781-2783 and the
three analogous blocks). -/
def bucketAppend (b : Option (List String)) (item : String) : Option (List String) :=
  some (b.getD [] ++ [item])

/-- `__ignore_findings` (source lines 2746-2752). -/
def ignore_findings : List String :=
  [ "vetR_analysis_enabled", "nae_analysis_enabled", "ssd_analysis_enabled",
    "main_document", "hw_inventory" ]

/-- `__priority_mapping_schema` (source lines 2755-2766); `none` models
the `KeyError` of an unmapped severity. -/
def priority_mapping_schema (s : String) : Option String :=
  if s = "emergency" then some "1 - Critical"
  else if s = "alert" then some "1 - Critical"
  else if s = "critical" then some "1 - Critical"
  else if s = "error" then some "2 - Warning"
  else if s = "warning" then some "2 - Warning"
  else if s = "notice" then some "3 - Informational"
  else if s = "info" then some "3 - Informational"
  else if s = "debug" then some "99 - Debug"
  else if s = "ok" then some "0 - Health"
  else if s = "invisible" then some "100 - Invisible"
  else none

/-- Python `s.lower()`. -/
def pyLower (s : String) : String :=
  String.mk (s.toList.map Char.toLower)

/-- The tool-source classification (source lines 2806-2814): branch on
the part of the finding name before the first underscore. -/
def finding_source (item : String) : String :=
  let c := (pySplitUnderscore item).headD ""
  if c = "ssd" then "1 - ssd"
  else if c = "vetR" then "2 - vetR"
  else if c = "nae" then "3 - nae"
  else "99 - " ++ c

/-- The error-branch bucketing (source lines 2778-2800): note the first
check (`Template missing`) is an independent `if` while the remaining
three (`NDI support missing in template` / `Syntax error in Template` /
`Undefined error while rendering template`) form an `if`/`elif`/`elif`
chain; an error message matching none of the four prefixes leaves every
bucket unchanged. -/
def bucket_step (doc : MainDoc) (item : String) (err : String) : MainDoc :=
  let doc :=
    if pyStartsWith err "Template missing" then
      { doc with missing_templates := bucketAppend doc.missing_templates item }
    else doc
  if pyStartsWith err "NDI support missing in template" then
    { doc with templates_missing_ndi_support :=
        bucketAppend doc.templates_missing_ndi_support item }
  else if pyStartsWith err "Syntax error in Template" then
    { doc with syntax_error_templates := bucketAppend doc.syntax_error_templates item }
  else if pyStartsWith err "Undefined error while rendering template" then
    { doc with undefined_error_templates := bucketAppend doc.undefined_error_templates item }
  else doc

/-- Row construction for a metadata-carrying finding (source lines
2804-2861): severity lookup and affected-count fall back to `"-"` on
`KeyError`; the headline lookup `__item_headline_entries[0]` raises an
uncaught `IndexError` when the content has no markdown headline (the
surrounding `except` catches only `KeyError`). -/
def finding_row (item : String) (meta : TemplateMeta) (headlines : List String) :
    Except String SummaryRow :=
  let priority :=
    match meta.severity with
    | none => "-"
    | some sev => (priority_mapping_schema (pyLower sev)).getD "-"
  let affected := meta.affected_count.getD "-"
  match headlines with
  | [] => .error "IndexError"
  | h :: _ =>
      .ok { name := item, headline := h, tool_source := finding_source item,
            priority := priority, affected_count := affected }

/-- `create_findings_summary_table` (source lines 2739-2873), threading
the four buckets and the accumulated summary table through the item
loop: ignored bookkeeping keys are skipped; error-carrying entries are
bucketed (never added to the table); entries without metadata are
skipped; the rest yield a table row. -/
def create_findings_summary_table :
    List (String × Finding) → MainDoc → List SummaryRow →
    Except String (MainDoc × List SummaryRow)
  | [], doc, table => .ok (doc, table)
  | (item, f) :: rest, doc, table =>
      if item ∈ ignore_findings then create_findings_summary_table rest doc table
      else
        match f.error with
        | some err => create_findings_summary_table rest (bucket_step doc item err) table
        | none =>
            match f.metadata with
            | some meta =>
                match finding_row item meta f.headlines with
                | .error e => .error e
                | .ok row => create_findings_summary_table rest doc (table ++ [row])
            | none => create_findings_summary_table rest doc table

end AciAudit

namespace AciAudit

/-! ## Theorems -/

theorem nodup_vetr_2_0_0_keys : vetr_2_0_0_keys.Nodup := by decide

theorem nodup_vetr_2_0_8_keys : vetr_2_0_8_keys.Nodup := by decide

/-- If a duplicate-free key list passes one of the two
length-plus-membership checks, its key set is exactly that format's key
set. -/
theorem toFinset_eq_of_length_all_mem (ks target : List String)
    (hnd : ks.Nodup) (hnt : target.Nodup)
    (hlen : ks.length = target.length)
    (hall : ks.all (fun k => decide (k ∈ target)) = true) :
    ks.toFinset = target.toFinset := by
  have hsub : ks.toFinset ⊆ target.toFinset := by
    intro a ha
    rw [List.mem_toFinset] at ha ⊢
    have := List.all_eq_true.mp hall a ha
    exact of_decide_eq_true this
  apply Finset.eq_of_subset_of_card_le hsub
  rw [List.toFinset_card_of_nodup hnd, List.toFinset_card_of_nodup hnt, hlen]

/-- C7: for every input dictionary whose (duplicate-free) top-level key
set is neither exactly the legacy key set nor exactly the canonical key
set, `vetr_check_dataformat` fails (exits) instead of returning a format
classification; in particular matching on key cardinality alone never
yields a successful detection. -/
theorem vetr_check_dataformat_unrecognized_fails (ks : List String)
    (hnd : ks.Nodup)
    (h0 : ks.toFinset ≠ vetr_2_0_0_keys.toFinset)
    (h8 : ks.toFinset ≠ vetr_2_0_8_keys.toFinset) :
    vetr_check_dataformat ks = none := by
  unfold vetr_check_dataformat
  split
  · next hlen =>
    split
    · next hall =>
      exact absurd
        (toFinset_eq_of_length_all_mem ks vetr_2_0_8_keys hnd nodup_vetr_2_0_8_keys hlen hall) h8
    · rfl
  · split
    · next hlen =>
      split
      · next hall =>
        exact absurd
          (toFinset_eq_of_length_all_mem ks vetr_2_0_0_keys hnd nodup_vetr_2_0_0_keys hlen hall) h0
      · rfl
    · rfl

/-- Witness for C7: a concrete key list (13 keys, one of them outside the
canonical set) matching neither key set is rejected. -/
theorem vetr_check_dataformat_unrecognized_fails_witness :
    (([ "meta", "stats", "apic", "system", "faults", "tenant", "health",
        "fabric", "access", "admin", "apps", "scale", "bogus" ] : List String).Nodup
    ∧ ([ "meta", "stats", "apic", "system", "faults", "tenant", "health",
        "fabric", "access", "admin", "apps", "scale", "bogus" ] : List String).toFinset
        ≠ vetr_2_0_0_keys.toFinset
    ∧ ([ "meta", "stats", "apic", "system", "faults", "tenant", "health",
        "fabric", "access", "admin", "apps", "scale", "bogus" ] : List String).toFinset
        ≠ vetr_2_0_8_keys.toFinset)
    ∧ vetr_check_dataformat
        [ "meta", "stats", "apic", "system", "faults", "tenant", "health",
          "fabric", "access", "admin", "apps", "scale", "bogus" ] = none :=
  ⟨⟨by decide, by decide, by decide⟩,
    vetr_check_dataformat_unrecognized_fails _ (by decide) (by decide) (by decide)⟩

/-- Concrete full legacy input for the C1 counterexample. -/
def vetr_cx_input : List (String × VetrVal Unit) :=
  vetr_legacy_input (.leaf ()) (.leaf ()) (.leaf ()) (.leaf ()) (.leaf ())
    (.leaf ()) (.leaf ()) (.leaf ()) (.leaf ()) (.leaf ()) (.leaf ())
    (.leaf ()) (.leaf ()) (.leaf ()) (.leaf ()) (.leaf ()) (.leaf ())
    (.leaf ()) (.leaf ()) (.leaf ()) (.leaf ()) (.leaf ()) (.leaf ())
    (.leaf ()) (.leaf ()) (.leaf ()) (.leaf ()) (.leaf ()) (.leaf ())

/-- Migration output for `vetr_cx_input`. -/
def vetr_cx_output : List (String × VetrVal Unit) :=
  vetr_legacy_expected (.leaf ()) (.leaf ()) (.leaf ()) (.leaf ()) (.leaf ())
    (.leaf ()) (.leaf ()) (.leaf ()) (.leaf ()) (.leaf ()) (.leaf ())
    (.leaf ()) (.leaf ()) (.leaf ()) (.leaf ()) (.leaf ()) (.leaf ())
    (.leaf ()) (.leaf ()) (.leaf ()) (.leaf ()) (.leaf ()) (.leaf ())
    (.leaf ()) (.leaf ()) (.leaf ()) (.leaf ()) (.leaf ()) (.leaf ())

/-- C1 counterexample: a concrete input whose top-level key set is
exactly the legacy key set migrates to an output whose top-level key set
is missing the canonical keys `apic` and `apps`, so it does not equal the
canonical key set as the claim states. -/
theorem vetr_convert_dataformat_keyset_counterexample :
    vetr_convert_dataformat vetr_cx_input = .ok vetr_cx_output
    ∧ "apic" ∈ vetr_2_0_8_keys
    ∧ "apps" ∈ vetr_2_0_8_keys
    ∧ "apic" ∉ assocKeys vetr_cx_output
    ∧ "apps" ∉ assocKeys vetr_cx_output
    ∧ (assocKeys vetr_cx_output).toFinset ≠ vetr_2_0_8_keys.toFinset :=
  ⟨rfl, by decide, by decide, by decide, by decide, by decide⟩

/-! ### Dictionary lemmas -/

theorem assocKeys_append (d1 d2 : List (String × α)) :
    assocKeys (d1 ++ d2) = assocKeys d1 ++ assocKeys d2 :=
  List.map_append _ d1 d2

theorem dictUpdate_cons (d : List (String × α)) (kv : String × α) (rest : List (String × α)) :
    dictUpdate d (kv :: rest) = dictUpdate (dictSet d kv.1 kv.2) rest := rfl

theorem dictSet_of_not_mem {d : List (String × α)} {k : String} (v : α)
    (h : k ∉ assocKeys d) : dictSet d k v = d ++ [(k, v)] := by
  induction d with
  | nil => rfl
  | cons kv rest ih =>
      obtain ⟨k', v'⟩ := kv
      simp only [assocKeys, List.map_cons, List.mem_cons, not_or] at h
      simp only [dictSet]
      rw [if_neg (fun hh : k' = k => h.1 hh.symm), ih h.2]
      rfl

theorem dictSet_cons_eq {k' k : String} (h : k' = k) (v' v : α)
    (rest : List (String × α)) :
    dictSet ((k', v') :: rest) k v = (k, v) :: rest := by
  simp [dictSet, h]

theorem dictSet_cons_ne {k' k : String} (h : ¬k' = k) (v' v : α)
    (rest : List (String × α)) :
    dictSet ((k', v') :: rest) k v = (k', v') :: dictSet rest k v := by
  simp [dictSet, h]

theorem dictGet_cons_eq {k' k : String} (h : k' = k) (v' : α)
    (rest : List (String × α)) :
    dictGet ((k', v') :: rest) k = some v' := by
  simp [dictGet, h]

theorem dictGet_cons_ne {k' k : String} (h : ¬k' = k) (v' : α)
    (rest : List (String × α)) :
    dictGet ((k', v') :: rest) k = dictGet rest k := by
  simp [dictGet, h]

theorem dictGet_dictSet_self (d : List (String × α)) (k : String) (v : α) :
    dictGet (dictSet d k v) k = some v := by
  induction d with
  | nil => simp [dictSet, dictGet]
  | cons kv rest ih =>
      obtain ⟨k', v'⟩ := kv
      by_cases h : k' = k
      · rw [dictSet_cons_eq h, dictGet_cons_eq rfl]
      · rw [dictSet_cons_ne h, dictGet_cons_ne h, ih]

theorem dictGet_dictSet_ne (d : List (String × α)) {k k1 : String} (v : α)
    (h : k1 ≠ k) : dictGet (dictSet d k v) k1 = dictGet d k1 := by
  induction d with
  | nil =>
      show dictGet [(k, v)] k1 = dictGet [] k1
      exact dictGet_cons_ne (fun hh : k = k1 => h hh.symm) v []
  | cons kv rest ih =>
      obtain ⟨k', v'⟩ := kv
      by_cases hk : k' = k
      · subst hk
        rw [dictSet_cons_eq rfl,
          dictGet_cons_ne (fun hh : k' = k1 => h hh.symm),
          dictGet_cons_ne (fun hh : k' = k1 => h hh.symm)]
      · by_cases hk1 : k' = k1
        · rw [dictSet_cons_ne hk, dictGet_cons_eq hk1, dictGet_cons_eq hk1]
        · rw [dictSet_cons_ne hk, dictGet_cons_ne hk1, dictGet_cons_ne hk1, ih]

theorem dictGet_dictUpdate_not_mem (other : List (String × α)) (d : List (String × α))
    (k : String) (h : k ∉ assocKeys other) :
    dictGet (dictUpdate d other) k = dictGet d k := by
  induction other generalizing d with
  | nil => rfl
  | cons kv rest ih =>
      obtain ⟨k0, v0⟩ := kv
      simp only [assocKeys, List.map_cons, List.mem_cons, not_or] at h
      rw [dictUpdate_cons, ih _ h.2, dictGet_dictSet_ne _ _ h.1]

theorem dictGet_dictUpdate_mem (other : List (String × α)) (d : List (String × α))
    (k : String) (hnd : (assocKeys other).Nodup) (h : k ∈ assocKeys other) :
    dictGet (dictUpdate d other) k = dictGet other k := by
  induction other generalizing d with
  | nil => cases h
  | cons kv rest ih =>
      obtain ⟨k0, v0⟩ := kv
      simp only [assocKeys, List.map_cons] at hnd h
      rw [List.nodup_cons] at hnd
      rw [dictUpdate_cons]
      rcases List.mem_cons.mp h with h1 | h1
      · subst h1
        rw [dictGet_dictUpdate_not_mem rest _ _ hnd.1, dictGet_dictSet_self]
        simp [dictGet]
      · by_cases he : k = k0
        · exact absurd (he ▸ h1) hnd.1
        · rw [ih _ hnd.2 h1, dictGet_cons_ne (fun hh : k0 = k => he hh.symm)]

theorem dictUpdate_of_disjoint (other d : List (String × α))
    (hnd : (assocKeys other).Nodup)
    (hdisj : ∀ k ∈ assocKeys other, k ∉ assocKeys d) :
    dictUpdate d other = d ++ other := by
  induction other generalizing d with
  | nil => simp [dictUpdate]
  | cons kv rest ih =>
      obtain ⟨k0, v0⟩ := kv
      simp only [assocKeys, List.map_cons] at hnd hdisj
      rw [List.nodup_cons] at hnd
      rw [dictUpdate_cons]
      have hk0 : k0 ∉ assocKeys d := hdisj k0 (List.mem_cons_self _ _)
      rw [dictSet_of_not_mem v0 hk0]
      rw [ih (d ++ [(k0, v0)]) hnd.2 ?_]
      · simp
      · intro k hk
        rw [assocKeys_append, List.mem_append, not_or]
        refine ⟨hdisj k (List.mem_cons_of_mem _ hk), ?_⟩
        simp only [assocKeys, List.map_cons, List.map_nil, List.mem_singleton]
        exact fun hh => hnd.1 (hh ▸ hk)

theorem lookup_eq_dictGet (d : List (String × α)) (k : String) :
    List.lookup k d = dictGet d k := by
  induction d with
  | nil => rfl
  | cons kv rest ih =>
      obtain ⟨k', v'⟩ := kv
      by_cases h : k' = k
      · subst h
        simp [List.lookup, dictGet]
      · rw [dictGet_cons_ne h]
        have hne : (k == k') = false := by
          simp [beq_iff_eq]
          exact fun hh => h hh.symm
        simp [List.lookup, hne, ih]

theorem mem_assocKeys_iff (d : List (String × α)) (k : String) :
    k ∈ assocKeys d ↔ (dictGet d k).isSome = true := by
  induction d with
  | nil => simp [assocKeys, dictGet]
  | cons kv rest ih =>
      obtain ⟨k', v'⟩ := kv
      by_cases h : k' = k
      · subst h
        simp [assocKeys, dictGet]
      · rw [dictGet_cons_ne h]
        simp only [assocKeys, List.map_cons, List.mem_cons] at ih ⊢
        constructor
        · intro hh
          rcases hh with hh | hh
          · exact absurd hh.symm h
          · exact ih.mp hh
        · intro hh
          exact Or.inr (ih.mpr hh)

theorem mem_assocKeys_dictSet (d : List (String × α)) (k : String) (v : α) (k1 : String) :
    k1 ∈ assocKeys (dictSet d k v) ↔ k1 ∈ assocKeys d ∨ k1 = k := by
  induction d with
  | nil => simp [dictSet, assocKeys, eq_comm]
  | cons kv rest ih =>
      obtain ⟨k', v'⟩ := kv
      by_cases h : k' = k
      · subst h
        rw [dictSet_cons_eq rfl]
        simp only [assocKeys, List.map_cons, List.mem_cons]
        tauto
      · rw [dictSet_cons_ne h]
        simp only [assocKeys, List.map_cons, List.mem_cons] at ih ⊢
        tauto

theorem compat_symm {a b : WLoc} (h : compat a b) : compat b a := by
  cases a with
  | top s =>
      cases b with
      | top t => exact fun hh => h hh.symm
      | fld t g => exact fun hh => h hh.symm
  | fld s f =>
      cases b with
      | top t => exact fun hh => h hh.symm
      | fld t g =>
          rcases h with h | h
          · exact Or.inl (fun hh => h hh.symm)
          · exact Or.inr (fun hh => h hh.symm)

theorem conv_assign_eq_applyW (target : String) (loc : WLoc)
    (hp : parseLoc target = some loc) (out : List (String × VetrVal α))
    (v : VetrVal α) (lk : String) :
    conv_assign out target v lk = applyW out loc v lk := by
  unfold conv_assign
  unfold parseLoc at hp
  cases hs : pySplitUnderscore target with
  | nil => rw [hs] at hp; cases hp
  | cons s t =>
      cases t with
      | nil =>
          rw [hs] at hp
          obtain rfl : WLoc.top s = loc := Option.some.inj hp
          rfl
      | cons f t2 =>
          cases t2 with
          | nil =>
              rw [hs] at hp
              obtain rfl : WLoc.fld s f = loc := Option.some.inj hp
              rfl
          | cons g t3 =>
              rw [hs] at hp
              cases hp

theorem dictSet_dictSet (d : List (String × α)) (k : String) (v1 v2 : α) :
    dictSet (dictSet d k v1) k v2 = dictSet d k v2 := by
  induction d with
  | nil => simp [dictSet]
  | cons kv rest ih =>
      obtain ⟨k', v'⟩ := kv
      by_cases h : k' = k
      · rw [dictSet_cons_eq h, dictSet_cons_eq rfl, dictSet_cons_eq h]
      · rw [dictSet_cons_ne h, dictSet_cons_ne h, dictSet_cons_ne h, ih]

theorem applyW_top_ok {out out' : List (String × VetrVal α)} {s : String}
    {v : VetrVal α} {lk : String}
    (h : applyW out (.top s) v lk = .ok out') :
    s ∉ assocKeys out ∧ out' = dictSet out s v := by
  by_cases hm : s ∈ assocKeys out
  · simp [applyW, hm] at h
  · simp only [applyW, if_neg hm] at h
    exact ⟨hm, (Except.ok.inj h).symm⟩

theorem applyW_fld_none {out : List (String × VetrVal α)} {s : String}
    (f : String) (v : VetrVal α) (lk : String)
    (hs : dictGet out s = none) :
    applyW out (.fld s f) v lk = .ok (dictSet out s (.dict [(f, v)])) := by
  have hm : s ∉ assocKeys out := by
    rw [mem_assocKeys_iff, hs]
    simp
  simp only [applyW]
  rw [if_neg hm, lookup_eq_dictGet, dictGet_dictSet_self]
  show (if f ∈ assocKeys ([] : List (String × VetrVal α))
      then Except.error (ConvError.duplicatedData lk)
      else Except.ok (dictSet (dictSet out s (VetrVal.dict [])) s
        (VetrVal.dict (dictSet [] f v)))) = _
  rw [if_neg (by simp [assocKeys] : f ∉ assocKeys ([] : List (String × VetrVal α)))]
  rw [dictSet_dictSet]
  rfl

theorem applyW_fld_dict {out : List (String × VetrVal α)} {s : String}
    {fields : List (String × VetrVal α)}
    (f : String) (v : VetrVal α) (lk : String)
    (hs : dictGet out s = some (.dict fields)) :
    applyW out (.fld s f) v lk
      = if f ∈ assocKeys fields then .error (.duplicatedData lk)
        else .ok (dictSet out s (.dict (dictSet fields f v))) := by
  have hm : s ∈ assocKeys out := by
    rw [mem_assocKeys_iff, hs]
    rfl
  simp only [applyW]
  rw [if_pos hm, lookup_eq_dictGet, hs]

theorem applyW_fld_leaf {out : List (String × VetrVal α)} {s : String} {a : α}
    (f : String) (v : VetrVal α) (lk : String)
    (hs : dictGet out s = some (.leaf a)) :
    applyW out (.fld s f) v lk = .error (.notADict s) := by
  have hm : s ∈ assocKeys out := by
    rw [mem_assocKeys_iff, hs]
    rfl
  simp only [applyW]
  rw [if_pos hm, lookup_eq_dictGet, hs]

theorem locFree_fld_elim {out : List (String × VetrVal α)} {s f : String}
    (h : locFree out (.fld s f)) :
    (match dictGet out s with
      | none => True
      | some (VetrVal.dict fields) => f ∉ assocKeys fields
      | some (VetrVal.leaf _) => False) := h

theorem locFree_fld_intro {out : List (String × VetrVal α)} {s f : String}
    (h : (match dictGet out s with
      | none => True
      | some (VetrVal.dict fields) => f ∉ assocKeys fields
      | some (VetrVal.leaf _) => False)) : locFree out (.fld s f) := h

theorem applyW_ok_of_locFree (out : List (String × VetrVal α)) (loc : WLoc)
    (v : VetrVal α) (lk : String) (h : locFree out loc) :
    ∃ out', applyW out loc v lk = .ok out' := by
  cases loc with
  | top s =>
      have hm : s ∉ assocKeys out := h
      exact ⟨dictSet out s v, by simp [applyW, hm]⟩
  | fld s f =>
      cases hs : dictGet out s with
      | none => exact ⟨_, applyW_fld_none f v lk hs⟩
      | some w =>
          cases w with
          | dict fields =>
              have hf : f ∉ assocKeys fields := by
                have h' := locFree_fld_elim h
                rw [hs] at h'
                exact h'
              exact ⟨_, by rw [applyW_fld_dict f v lk hs, if_neg hf]⟩
          | leaf a =>
              exfalso
              have h' := locFree_fld_elim h
              rw [hs] at h'
              exact h'

theorem wGet_applyW_self {out out' : List (String × VetrVal α)} {loc : WLoc}
    {v : VetrVal α} {lk : String}
    (h : applyW out loc v lk = .ok out') : wGet out' loc = some v := by
  cases loc with
  | top s =>
      obtain ⟨hm, rfl⟩ := applyW_top_ok h
      exact dictGet_dictSet_self out s v
  | fld s f =>
      cases hs : dictGet out s with
      | none =>
          rw [applyW_fld_none f v lk hs] at h
          obtain rfl : dictSet out s (VetrVal.dict [(f, v)]) = out' := Except.ok.inj h
          show vetr_section_field (dictSet out s (VetrVal.dict [(f, v)])) s f = some v
          unfold vetr_section_field
          rw [dictGet_dictSet_self]
          exact dictGet_cons_eq rfl v []
      | some w =>
          cases w with
          | dict fields =>
              rw [applyW_fld_dict f v lk hs] at h
              by_cases hf : f ∈ assocKeys fields
              · rw [if_pos hf] at h; cases h
              · rw [if_neg hf] at h
                obtain rfl : dictSet out s (VetrVal.dict (dictSet fields f v)) = out' :=
                  Except.ok.inj h
                show vetr_section_field _ s f = some v
                unfold vetr_section_field
                rw [dictGet_dictSet_self]
                exact dictGet_dictSet_self fields f v
          | leaf a => rw [applyW_fld_leaf f v lk hs] at h; cases h

theorem dictGet_applyW_ne {out out' : List (String × VetrVal α)} {loc : WLoc}
    {v : VetrVal α} {lk : String} {t : String}
    (ht : t ≠ wsec loc) (h : applyW out loc v lk = .ok out') :
    dictGet out' t = dictGet out t := by
  cases loc with
  | top s =>
      obtain ⟨hm, rfl⟩ := applyW_top_ok h
      exact dictGet_dictSet_ne out v ht
  | fld s f =>
      cases hs : dictGet out s with
      | none =>
          rw [applyW_fld_none f v lk hs] at h
          obtain rfl : dictSet out s (VetrVal.dict [(f, v)]) = out' := Except.ok.inj h
          exact dictGet_dictSet_ne out _ ht
      | some w =>
          cases w with
          | dict fields =>
              rw [applyW_fld_dict f v lk hs] at h
              by_cases hf : f ∈ assocKeys fields
              · rw [if_pos hf] at h; cases h
              · rw [if_neg hf] at h
                obtain rfl : dictSet out s (VetrVal.dict (dictSet fields f v)) = out' :=
                  Except.ok.inj h
                exact dictGet_dictSet_ne out _ ht
          | leaf a => rw [applyW_fld_leaf f v lk hs] at h; cases h

theorem wGet_applyW_compat {out out' : List (String × VetrVal α)} {loc loc' : WLoc}
    {v : VetrVal α} {lk : String}
    (hc : compat loc loc') (h : applyW out loc v lk = .ok out') :
    wGet out' loc' = wGet out loc' := by
  cases loc' with
  | top t =>
      have ht : t ≠ wsec loc := by
        cases loc with
        | top s => exact fun hh => hc hh.symm
        | fld s f => exact fun hh => hc hh.symm
      exact dictGet_applyW_ne ht h
  | fld t g =>
      by_cases hts : t = wsec loc
      case neg =>
        show vetr_section_field out' t g = vetr_section_field out t g
        unfold vetr_section_field
        rw [dictGet_applyW_ne hts h]
      case pos =>
        cases loc with
        | top s => exact absurd hts.symm hc
        | fld s f =>
            rw [show t = s from hts] at hc ⊢
            have hfg : f ≠ g := by
              rcases hc with hc | hc
              · exact absurd rfl hc
              · exact hc
            cases hs : dictGet out s with
            | none =>
                rw [applyW_fld_none f v lk hs] at h
                obtain rfl : dictSet out s (VetrVal.dict [(f, v)]) = out' := Except.ok.inj h
                show vetr_section_field _ s g = vetr_section_field out s g
                unfold vetr_section_field
                rw [dictGet_dictSet_self, hs]
                show dictGet [(f, v)] g = none
                rw [dictGet_cons_ne (fun hh : f = g => hfg hh)]
                rfl
            | some w =>
                cases w with
                | dict fields =>
                    rw [applyW_fld_dict f v lk hs] at h
                    by_cases hf : f ∈ assocKeys fields
                    · rw [if_pos hf] at h; cases h
                    · rw [if_neg hf] at h
                      obtain rfl : dictSet out s (VetrVal.dict (dictSet fields f v)) = out' :=
                        Except.ok.inj h
                      show vetr_section_field _ s g = vetr_section_field out s g
                      unfold vetr_section_field
                      rw [dictGet_dictSet_self, hs]
                      exact dictGet_dictSet_ne fields v (fun hh : g = f => hfg hh.symm)
                | leaf a => rw [applyW_fld_leaf f v lk hs] at h; cases h

theorem locFree_applyW {out out' : List (String × VetrVal α)} {loc loc' : WLoc}
    {v : VetrVal α} {lk : String}
    (hc : compat loc loc') (hfr : locFree out loc') (h : applyW out loc v lk = .ok out') :
    locFree out' loc' := by
  cases loc' with
  | top t =>
      have ht : t ≠ wsec loc := by
        cases loc with
        | top s => exact fun hh => hc hh.symm
        | fld s f => exact fun hh => hc hh.symm
      show t ∉ assocKeys out'
      rw [mem_assocKeys_iff, dictGet_applyW_ne ht h, ← mem_assocKeys_iff]
      exact hfr
  | fld t g =>
      by_cases hts : t = wsec loc
      case neg =>
        refine locFree_fld_intro ?_
        rw [dictGet_applyW_ne hts h]
        exact locFree_fld_elim hfr
      case pos =>
        cases loc with
        | top s => exact absurd hts.symm hc
        | fld s f =>
            rw [show t = s from hts] at hc hfr ⊢
            have hfg : f ≠ g := by
              rcases hc with hc | hc
              · exact absurd rfl hc
              · exact hc
            cases hs : dictGet out s with
            | none =>
                rw [applyW_fld_none f v lk hs] at h
                obtain rfl : dictSet out s (VetrVal.dict [(f, v)]) = out' := Except.ok.inj h
                refine locFree_fld_intro ?_
                rw [dictGet_dictSet_self]
                show g ∉ assocKeys [(f, v)]
                simp only [assocKeys, List.map_cons, List.map_nil, List.mem_singleton]
                exact fun hh => hfg hh.symm
            | some w =>
                cases w with
                | dict fields =>
                    have hg : g ∉ assocKeys fields := by
                      have hfr' := locFree_fld_elim hfr
                      rw [hs] at hfr'
                      exact hfr'
                    rw [applyW_fld_dict f v lk hs] at h
                    by_cases hf : f ∈ assocKeys fields
                    · rw [if_pos hf] at h; cases h
                    · rw [if_neg hf] at h
                      obtain rfl : dictSet out s (VetrVal.dict (dictSet fields f v)) = out' :=
                        Except.ok.inj h
                      refine locFree_fld_intro ?_
                      rw [dictGet_dictSet_self]
                      show g ∉ assocKeys (dictSet fields f v)
                      rw [mem_assocKeys_dictSet]
                      rintro (hh | hh)
                      · exact hg hh
                      · exact hfg hh.symm
                | leaf a => rw [applyW_fld_leaf f v lk hs] at h; cases h

theorem mem_assocKeys_applyW {out out' : List (String × VetrVal α)} {loc : WLoc}
    {v : VetrVal α} {lk : String}
    (h : applyW out loc v lk = .ok out') (k : String) :
    k ∈ assocKeys out' ↔ k ∈ assocKeys out ∨ k = wsec loc := by
  cases loc with
  | top s =>
      obtain ⟨hm, rfl⟩ := applyW_top_ok h
      exact mem_assocKeys_dictSet out s v k
  | fld s f =>
      cases hs : dictGet out s with
      | none =>
          rw [applyW_fld_none f v lk hs] at h
          obtain rfl : dictSet out s (VetrVal.dict [(f, v)]) = out' := Except.ok.inj h
          exact mem_assocKeys_dictSet out s _ k
      | some w =>
          cases w with
          | dict fields =>
              rw [applyW_fld_dict f v lk hs] at h
              by_cases hf : f ∈ assocKeys fields
              · rw [if_pos hf] at h; cases h
              · rw [if_neg hf] at h
                obtain rfl : dictSet out s (VetrVal.dict (dictSet fields f v)) = out' :=
                  Except.ok.inj h
                exact mem_assocKeys_dictSet out s _ k
          | leaf a => rw [applyW_fld_leaf f v lk hs] at h; cases h

theorem locFree_nil (loc : WLoc) : locFree ([] : List (String × VetrVal α)) loc := by
  cases loc with
  | top s => simp [locFree, assocKeys]
  | fld s f => exact trivial

theorem applyWs_spec (ws : List (WLoc × VetrVal α × String)) :
    ∀ out : List (String × VetrVal α),
    (∀ w ∈ ws, locFree out w.1) →
    List.Pairwise (fun w w' : WLoc × VetrVal α × String => compat w.1 w'.1) ws →
    ∃ out', applyWs ws out = .ok out'
      ∧ (∀ w ∈ ws, wGet out' w.1 = some w.2.1)
      ∧ (∀ loc, (∀ w ∈ ws, compat w.1 loc) → wGet out' loc = wGet out loc)
      ∧ (∀ k, k ∈ assocKeys out' ↔ k ∈ assocKeys out ∨ k ∈ ws.map (fun w => wsec w.1)) := by
  induction ws with
  | nil =>
      intro out _ _
      exact ⟨out, rfl, by simp, fun loc _ => rfl, by simp⟩
  | cons w rest ih =>
      intro out hfree hpw
      obtain ⟨loc, v, lk⟩ := w
      rw [List.pairwise_cons] at hpw
      obtain ⟨hcomp, hpw'⟩ := hpw
      obtain ⟨out1, hok1⟩ :=
        applyW_ok_of_locFree out loc v lk (hfree _ (List.mem_cons_self _ _))
      have hfree1 : ∀ w' ∈ rest, locFree out1 w'.1 := fun w' hw' =>
        locFree_applyW (hcomp w' hw') (hfree w' (List.mem_cons_of_mem _ hw')) hok1
      obtain ⟨out', hok', hvals, hpres, hkeys⟩ := ih out1 hfree1 hpw'
      refine ⟨out', ?_, ?_, ?_, ?_⟩
      · show (match applyW out loc v lk with
          | Except.error e => Except.error e
          | Except.ok o => applyWs rest o) = .ok out'
        rw [hok1]
        exact hok'
      · intro w' hw'
        rcases List.mem_cons.mp hw' with rfl | hw2
        · rw [hpres loc (fun a ha => compat_symm (hcomp a ha))]
          exact wGet_applyW_self hok1
        · exact hvals w' hw2
      · intro loc' hcl
        rw [hpres loc' (fun a ha => hcl a (List.mem_cons_of_mem _ ha))]
        exact wGet_applyW_compat (hcl _ (List.mem_cons_self _ _)) hok1
      · intro k
        rw [hkeys k, mem_assocKeys_applyW hok1 k]
        simp only [List.map_cons, List.mem_cons]
        tauto

theorem applyWs_append (a b : List (WLoc × VetrVal α × String)) :
    ∀ out, applyWs (a ++ b) out
      = match applyWs a out with
        | Except.error e => Except.error e
        | Except.ok o => applyWs b o := by
  induction a with
  | nil => intro out; rfl
  | cons w rest ih =>
      intro out
      obtain ⟨loc, v, lk⟩ := w
      show (match applyW out loc v lk with
          | Except.error e => Except.error e
          | Except.ok o => applyWs (rest ++ b) o)
        = (match (match applyW out loc v lk with
            | Except.error e => Except.error e
            | Except.ok o => applyWs rest o) with
          | Except.error e => Except.error e
          | Except.ok o => applyWs b o)
      cases happ : applyW out loc v lk with
      | error e => rfl
      | ok out1 => exact ih out1

theorem conv_children_eq_applyWs (tbl : List (String × String))
    (cs : List (String × VetrVal α)) :
    ∀ out,
    (∀ c ∈ cs, ∃ tgt, tbl.lookup c.1 = some tgt ∧ (parseLoc tgt).isSome = true) →
    conv_children tbl cs out = applyWs (childWrites tbl cs) out := by
  induction cs with
  | nil => intro out _; rfl
  | cons c rest ih =>
      intro out h
      obtain ⟨ck, cv⟩ := c
      obtain ⟨tgt, htgt, hps⟩ := h (ck, cv) (List.mem_cons_self _ _)
      obtain ⟨loc, hloc⟩ := Option.isSome_iff_exists.mp hps
      have hcw : childWrites tbl ((ck, cv) :: rest)
          = (loc, cv, ck) :: childWrites tbl rest := by
        simp [childWrites, htgt, hloc]
      rw [hcw]
      show (match tbl.lookup ck with
        | none => Except.error (ConvError.unmappedChildKey ck)
        | some tgt =>
            match conv_assign out tgt cv ck with
            | Except.error e => Except.error e
            | Except.ok out1 => conv_children tbl rest out1) = _
      rw [htgt]
      show (match conv_assign out tgt cv ck with
          | Except.error e => Except.error e
          | Except.ok out1 => conv_children tbl rest out1)
        = applyWs ((loc, cv, ck) :: childWrites tbl rest) out
      rw [conv_assign_eq_applyW tgt loc hloc]
      show (match applyW out loc cv ck with
          | Except.error e => Except.error e
          | Except.ok out1 => conv_children tbl rest out1)
        = (match applyW out loc cv ck with
          | Except.error e => Except.error e
          | Except.ok out1 => applyWs (childWrites tbl rest) out1)
      cases happ : applyW out loc cv ck with
      | error e => rfl
      | ok out1 => exact ih out1 (fun c hc => h c (List.mem_cons_of_mem _ hc))

theorem vetr_convert_loop_eq_applyWs (d : List (String × VetrVal α)) :
    ∀ out, (∀ p ∈ d, keyConforms p) →
    vetr_convert_loop d out = applyWs (inputWrites d) out := by
  induction d with
  | nil => intro out _; rfl
  | cons p rest ih =>
      intro out h
      obtain ⟨k, v⟩ := p
      have hk := h (k, v) (List.mem_cons_self _ _)
      have hiw : inputWrites ((k, v) :: rest) = dWrites (k, v) ++ inputWrites rest := by
        simp [inputWrites]
      have hrest : ∀ p ∈ rest, keyConforms p := fun p hp => h p (List.mem_cons_of_mem _ hp)
      rw [hiw, applyWs_append]
      unfold keyConforms at hk
      cases ht : vetr_conversion_table.lookup k with
      | none => rw [ht] at hk; exact hk.elim
      | some tg =>
          rw [ht] at hk
          cases tg with
          | direct tgt =>
              obtain ⟨loc, hloc⟩ := Option.isSome_iff_exists.mp hk
              have hdw : dWrites (k, v) = [(loc, v, k)] := by
                simp [dWrites, ht, hloc]
              rw [hdw]
              show (match vetr_conversion_table.lookup k with
                | none => Except.error (ConvError.unmappedKey k)
                | some (.nested tbl) =>
                    match v with
                    | .dict children =>
                        match conv_children tbl children out with
                        | Except.error e => Except.error e
                        | Except.ok out1 => vetr_convert_loop rest out1
                    | .leaf _ => Except.error (ConvError.notADict k)
                | some (.direct tgt) =>
                    match conv_assign out tgt v k with
                    | Except.error e => Except.error e
                    | Except.ok out1 => vetr_convert_loop rest out1) = _
              rw [ht]
              show (match conv_assign out tgt v k with
                  | Except.error e => Except.error e
                  | Except.ok out1 => vetr_convert_loop rest out1)
                = (match applyWs [(loc, v, k)] out with
                  | Except.error e => Except.error e
                  | Except.ok o => applyWs (inputWrites rest) o)
              rw [conv_assign_eq_applyW tgt loc hloc]
              show (match applyW out loc v k with
                  | Except.error e => Except.error e
                  | Except.ok out1 => vetr_convert_loop rest out1)
                = (match applyWs [(loc, v, k)] out with
                  | Except.error e => Except.error e
                  | Except.ok o => applyWs (inputWrites rest) o)
              cases happ : applyW out loc v k with
              | error e =>
                  show Except.error e
                    = (match (match applyW out loc v k with
                        | Except.error e => Except.error e
                        | Except.ok o => applyWs [] o) with
                      | Except.error e => Except.error e
                      | Except.ok o => applyWs (inputWrites rest) o)
                  rw [happ]
              | ok out1 =>
                  show vetr_convert_loop rest out1
                    = (match (match applyW out loc v k with
                        | Except.error e => Except.error e
                        | Except.ok o => applyWs [] o) with
                      | Except.error e => Except.error e
                      | Except.ok o => applyWs (inputWrites rest) o)
                  rw [happ]
                  exact ih out1 hrest
          | nested tbl =>
              cases v with
              | leaf a => exact hk.elim
              | dict cs =>
                  have hdw : dWrites (k, VetrVal.dict cs) = childWrites tbl cs := by
                    simp [dWrites, ht]
                  rw [hdw]
                  show (match vetr_conversion_table.lookup k with
                    | none => Except.error (ConvError.unmappedKey k)
                    | some (.nested tbl) =>
                        match (VetrVal.dict cs : VetrVal α) with
                        | .dict children =>
                            match conv_children tbl children out with
                            | Except.error e => Except.error e
                            | Except.ok out1 => vetr_convert_loop rest out1
                        | .leaf _ => Except.error (ConvError.notADict k)
                    | some (.direct tgt) =>
                        match conv_assign out tgt (VetrVal.dict cs) k with
                        | Except.error e => Except.error e
                        | Except.ok out1 => vetr_convert_loop rest out1) = _
                  rw [ht]
                  show (match conv_children tbl cs out with
                      | Except.error e => Except.error e
                      | Except.ok out1 => vetr_convert_loop rest out1)
                    = (match applyWs (childWrites tbl cs) out with
                      | Except.error e => Except.error e
                      | Except.ok o => applyWs (inputWrites rest) o)
                  rw [conv_children_eq_applyWs tbl cs out hk]
                  cases happ : applyWs (childWrites tbl cs) out with
                  | error e => rfl
                  | ok out1 => exact ih out1 hrest

theorem vetr_convert_dataformat_eq_applyWs (d : List (String × VetrVal α))
    (h : ∀ p ∈ d, keyConforms p) :
    vetr_convert_dataformat d = applyWs (inputWrites d) [] :=
  vetr_convert_loop_eq_applyWs d [] h

theorem inputWrites_canonical_locs (val adVal eolVal mcpVal scaleVal : String → VetrVal α) :
    (inputWrites (vetr_canonical_input val adVal eolVal mcpVal scaleVal)).map Prod.fst
      = vetr_canonical_locs := rfl

theorem pairwise_compat_canonical_locs : List.Pairwise compat vetr_canonical_locs := by
  decide

theorem inputWrites_canonical_sections (val adVal eolVal mcpVal scaleVal : String → VetrVal α) :
    (inputWrites (vetr_canonical_input val adVal eolVal mcpVal scaleVal)).map
        (fun w => wsec w.1)
      = vetr_canonical_locs.map wsec := rfl

theorem mem_canonical_sections_iff (k : String) :
    k ∈ vetr_canonical_locs.map wsec ↔ k ∈ vetr_out_sections := by
  have h1 : ∀ x ∈ vetr_canonical_locs.map wsec, x ∈ vetr_out_sections := by decide
  have h2 : ∀ x ∈ vetr_out_sections, x ∈ vetr_canonical_locs.map wsec := by decide
  exact ⟨h1 k, h2 k⟩

theorem legacy_keyConforms {order adOrder eolOrder mcpOrder scaleOrder : List String}
    {val adVal eolVal mcpVal scaleVal : String → VetrVal α}
    (horder : List.Perm order vetr_2_0_0_keys)
    (hadP : List.Perm adOrder ["encryptedBackups"])
    (heolP : List.Perm eolOrder ["apic"])
    (hmcpP : List.Perm mcpOrder ["interface", "global"])
    (hscaleP : List.Perm scaleOrder ["fabric", "guide", "switch"])
    (hadmin : val "admin" = .dict (adOrder.map (fun c => (c, adVal c))))
    (heol : val "eol" = .dict (eolOrder.map (fun c => (c, eolVal c))))
    (hmcp : val "mcp" = .dict (mcpOrder.map (fun c => (c, mcpVal c))))
    (hscale : val "scale" = .dict (scaleOrder.map (fun c => (c, scaleVal c)))) :
    ∀ p ∈ order.map (fun k => (k, val k)), keyConforms p := by
  intro p hp
  obtain ⟨k, hk, rfl⟩ := List.mem_map.mp hp
  have hk0 : k ∈ vetr_2_0_0_keys := horder.mem_iff.mp hk
  fin_cases hk0
  all_goals first
  | exact rfl
  | skip
  · rw [hadmin]
    intro c hc
    obtain ⟨ck, hck, rfl⟩ := List.mem_map.mp hc
    have hck0 : ck ∈ ["encryptedBackups"] := hadP.mem_iff.mp hck
    fin_cases hck0
    exact ⟨"system_encryptedBackups", rfl, rfl⟩
  · rw [heol]
    intro c hc
    obtain ⟨ck, hck, rfl⟩ := List.mem_map.mp hc
    have hck0 : ck ∈ ["apic"] := heolP.mem_iff.mp hck
    fin_cases hck0
    exact ⟨"eol_apic", rfl, rfl⟩
  · rw [hmcp]
    intro c hc
    obtain ⟨ck, hck, rfl⟩ := List.mem_map.mp hc
    have hck0 : ck ∈ ["interface", "global"] := hmcpP.mem_iff.mp hck
    fin_cases hck0
    · exact ⟨"access_mcpInterface", rfl, rfl⟩
    · exact ⟨"fabric_mcpGlobal", rfl, rfl⟩
  · rw [hscale]
    intro c hc
    obtain ⟨ck, hck, rfl⟩ := List.mem_map.mp hc
    have hck0 : ck ∈ ["fabric", "guide", "switch"] := hscaleP.mem_iff.mp hck
    fin_cases hck0
    · exact ⟨"scale_fabric", rfl, rfl⟩
    · exact ⟨"scale_guide", rfl, rfl⟩
    · exact ⟨"scale_switch", rfl, rfl⟩

theorem inputWrites_perm_canonical {order adOrder eolOrder mcpOrder scaleOrder : List String}
    {val adVal eolVal mcpVal scaleVal : String → VetrVal α}
    (horder : List.Perm order vetr_2_0_0_keys)
    (hadP : List.Perm adOrder ["encryptedBackups"])
    (heolP : List.Perm eolOrder ["apic"])
    (hmcpP : List.Perm mcpOrder ["interface", "global"])
    (hscaleP : List.Perm scaleOrder ["fabric", "guide", "switch"])
    (hadmin : val "admin" = .dict (adOrder.map (fun c => (c, adVal c))))
    (heol : val "eol" = .dict (eolOrder.map (fun c => (c, eolVal c))))
    (hmcp : val "mcp" = .dict (mcpOrder.map (fun c => (c, mcpVal c))))
    (hscale : val "scale" = .dict (scaleOrder.map (fun c => (c, scaleVal c)))) :
    List.Perm (inputWrites (order.map (fun k => (k, val k))))
      (inputWrites (vetr_canonical_input val adVal eolVal mcpVal scaleVal)) := by
  have h1 : List.Perm (order.map (fun k => (k, val k)))
      (vetr_2_0_0_keys.map (fun k => (k, val k))) := horder.map _
  have h2 : List.Perm (inputWrites (order.map (fun k => (k, val k))))
      (inputWrites (vetr_2_0_0_keys.map (fun k => (k, val k)))) :=
    (h1.map dWrites).flatten
  have h3 : List.Forall₂ List.Perm
      ((vetr_2_0_0_keys.map (fun k => (k, val k))).map dWrites)
      ((vetr_canonical_input val adVal eolVal mcpVal scaleVal).map dWrites) := by
    simp only [vetr_2_0_0_keys, vetr_canonical_input, List.map_cons, List.map_nil]
    refine List.Forall₂.cons (List.Perm.refl _) ?_
    refine List.Forall₂.cons (List.Perm.refl _) ?_
    refine List.Forall₂.cons ?_ ?_
    · rw [hadmin]
      exact (hadP.map (fun c => (c, adVal c))).filterMap _
    refine List.Forall₂.cons (List.Perm.refl _) ?_
    refine List.Forall₂.cons ?_ ?_
    · rw [heol]
      exact (heolP.map (fun c => (c, eolVal c))).filterMap _
    refine List.Forall₂.cons (List.Perm.refl _) ?_
    refine List.Forall₂.cons (List.Perm.refl _) ?_
    refine List.Forall₂.cons (List.Perm.refl _) ?_
    refine List.Forall₂.cons (List.Perm.refl _) ?_
    refine List.Forall₂.cons (List.Perm.refl _) ?_
    refine List.Forall₂.cons (List.Perm.refl _) ?_
    refine List.Forall₂.cons (List.Perm.refl _) ?_
    refine List.Forall₂.cons (List.Perm.refl _) ?_
    refine List.Forall₂.cons (List.Perm.refl _) ?_
    refine List.Forall₂.cons ?_ ?_
    · rw [hmcp]
      exact (hmcpP.map (fun c => (c, mcpVal c))).filterMap _
    refine List.Forall₂.cons (List.Perm.refl _) ?_
    refine List.Forall₂.cons (List.Perm.refl _) ?_
    refine List.Forall₂.cons (List.Perm.refl _) ?_
    refine List.Forall₂.cons (List.Perm.refl _) ?_
    refine List.Forall₂.cons (List.Perm.refl _) ?_
    refine List.Forall₂.cons (List.Perm.refl _) ?_
    refine List.Forall₂.cons (List.Perm.refl _) ?_
    refine List.Forall₂.cons (List.Perm.refl _) ?_
    refine List.Forall₂.cons ?_ ?_
    · rw [hscale]
      exact (hscaleP.map (fun c => (c, scaleVal c))).filterMap _
    refine List.Forall₂.cons (List.Perm.refl _) ?_
    refine List.Forall₂.cons (List.Perm.refl _) ?_
    exact List.Forall₂.nil
  exact h2.trans (List.Perm.flatten_congr h3)

theorem mem_inputWrites {d : List (String × VetrVal α)} {p : String × VetrVal α}
    {w : WLoc × VetrVal α × String} (hp : p ∈ d) (hw : w ∈ dWrites p) :
    w ∈ inputWrites d :=
  List.mem_flatten.mpr ⟨dWrites p, List.mem_map_of_mem _ hp, hw⟩

theorem direct_write_mem (k : String) {α : Type} {order : List String}
    {val : String → VetrVal α} {loc : WLoc}
    (horder : List.Perm order vetr_2_0_0_keys)
    (hk : k ∈ vetr_2_0_0_keys)
    (hdw : dWrites (k, val k) = [(loc, val k, k)]) :
    (loc, val k, k) ∈ inputWrites (order.map (fun k2 => (k2, val k2))) := by
  refine mem_inputWrites (List.mem_map_of_mem _ (horder.mem_iff.mpr hk)) ?_
  rw [hdw]
  exact List.mem_singleton.mpr rfl

theorem nested_write_mem (tbl : List (String × String)) (ck : String)
    {α : Type} {order corder : List String} {val cval : String → VetrVal α}
    {k : String} {w : WLoc × VetrVal α × String}
    (horder : List.Perm order vetr_2_0_0_keys)
    (hk : k ∈ vetr_2_0_0_keys)
    (hv : val k = VetrVal.dict (corder.map (fun c => (c, cval c))))
    (hck : ck ∈ corder)
    (hdw : dWrites (k, VetrVal.dict (corder.map (fun c => (c, cval c))))
        = childWrites tbl (corder.map (fun c => (c, cval c))))
    (hgw : ((tbl.lookup ck).bind parseLoc).map (fun loc => (loc, cval ck, ck)) = some w) :
    w ∈ inputWrites (order.map (fun k2 => (k2, val k2))) := by
  refine mem_inputWrites (List.mem_map_of_mem _ (horder.mem_iff.mpr hk)) ?_
  rw [hv, hdw]
  exact List.mem_filterMap.mpr ⟨(ck, cval ck), List.mem_map_of_mem _ hck, hgw⟩

/-- C1 (amended): for every input mapping whose top-level key set is
exactly the legacy (vetR 2.0.0) key set -- in any insertion order, with
the four nested keys carrying dictionaries of exactly the table-known
children, also in any order -- the migration succeeds and every legacy
payload appears unchanged at the canonical location the static mapping
table assigns it; the output's top-level key set, however, is not the
full canonical key set but the canonical key set minus `apic` and `apps`
(no mapping target ever populates those two sections). -/
theorem vetr_convert_dataformat_legacy_result {α : Type}
    (order adOrder eolOrder mcpOrder scaleOrder : List String)
    (val adVal eolVal mcpVal scaleVal : String → VetrVal α)
    (horder : List.Perm order vetr_2_0_0_keys)
    (hadP : List.Perm adOrder ["encryptedBackups"])
    (heolP : List.Perm eolOrder ["apic"])
    (hmcpP : List.Perm mcpOrder ["interface", "global"])
    (hscaleP : List.Perm scaleOrder ["fabric", "guide", "switch"])
    (hadmin : val "admin" = .dict (adOrder.map (fun c => (c, adVal c))))
    (heol : val "eol" = .dict (eolOrder.map (fun c => (c, eolVal c))))
    (hmcp : val "mcp" = .dict (mcpOrder.map (fun c => (c, mcpVal c))))
    (hscale : val "scale" = .dict (scaleOrder.map (fun c => (c, scaleVal c)))) :
    ∃ out, vetr_convert_dataformat (order.map (fun k => (k, val k))) = .ok out
      ∧ (∀ k, k ∈ assocKeys out ↔ k ∈ vetr_out_sections)
      ∧ vetr_out_sections.toFinset = vetr_2_0_8_keys.toFinset \ {"apic", "apps"}
      ∧ "apic" ∉ assocKeys out
      ∧ "apps" ∉ assocKeys out
      ∧ dictGet out "meta" = some (val "meta")
      ∧ vetr_section_field out "admin" "firmwareVersion" = some (val "firmware")
      ∧ vetr_section_field out "system" "encryptedBackups" = some (adVal "encryptedBackups")
      ∧ vetr_section_field out "stats" "fabric" = some (val "fabricStats")
      ∧ vetr_section_field out "eol" "apic" = some (eolVal "apic")
      ∧ vetr_section_field out "system" "epLoopProtection" = some (val "epLoopProtection")
      ∧ vetr_section_field out "system" "rogueEPControl" = some (val "rogueEPControl")
      ∧ vetr_section_field out "system" "ipAging" = some (val "ipAging")
      ∧ vetr_section_field out "system" "remoteEPlearning" = some (val "remoteEPlearning")
      ∧ vetr_section_field out "system" "enforceSubnetCheck" = some (val "enforceSubnetCheck")
      ∧ vetr_section_field out "system" "portTracking" = some (val "portTracking")
      ∧ vetr_section_field out "fabric" "coopStrict" = some (val "coopStrict")
      ∧ vetr_section_field out "fabric" "bfdFabricInt" = some (val "bfdFabricInt")
      ∧ vetr_section_field out "system" "domainValidation" = some (val "domainValidation")
      ∧ vetr_section_field out "access" "mcpInterface" = some (mcpVal "interface")
      ∧ vetr_section_field out "fabric" "mcpGlobal" = some (mcpVal "global")
      ∧ vetr_section_field out "fabric" "dom" = some (val "dom")
      ∧ vetr_section_field out "stats" "multipod" = some (val "multipod")
      ∧ vetr_section_field out "fabric" "isisMetric" = some (val "isisMetric")
      ∧ vetr_section_field out "tenant" "stats" = some (val "tenantStats")
      ∧ vetr_section_field out "tenant" "bdStats" = some (val "bdStats")
      ∧ vetr_section_field out "tenant" "ingressPolicyEnforcement"
          = some (val "ingressPolicyEnforcement")
      ∧ vetr_section_field out "tenant" "vzAny" = some (val "vzAny")
      ∧ vetr_section_field out "tenant" "l3outRedundancy" = some (val "l3outRedundancy")
      ∧ vetr_section_field out "scale" "fabric" = some (scaleVal "fabric")
      ∧ vetr_section_field out "scale" "guide" = some (scaleVal "guide")
      ∧ vetr_section_field out "scale" "switch" = some (scaleVal "switch")
      ∧ dictGet out "health" = some (val "health")
      ∧ vetr_section_field out "faults" "ssd" = some (val "ssd") := by
  have hconf := legacy_keyConforms horder hadP heolP hmcpP hscaleP hadmin heol hmcp hscale
  have hperm := inputWrites_perm_canonical horder hadP heolP hmcpP hscaleP hadmin heol hmcp hscale
  have hpwC : List.Pairwise (fun w w' : WLoc × VetrVal α × String => compat w.1 w'.1)
      (inputWrites (vetr_canonical_input val adVal eolVal mcpVal scaleVal)) := by
    have h29 := pairwise_compat_canonical_locs
    rw [← inputWrites_canonical_locs val adVal eolVal mcpVal scaleVal] at h29
    exact List.pairwise_map.mp h29
  have hpw := (hperm.pairwise_iff (fun hab => compat_symm hab)).mpr hpwC
  have hfree : ∀ w ∈ inputWrites (order.map (fun k => (k, val k))),
      locFree ([] : List (String × VetrVal α)) w.1 := fun w _ => locFree_nil w.1
  obtain ⟨out, hok, hvals, hpres, hkeys⟩ :=
    applyWs_spec (inputWrites (order.map (fun k => (k, val k)))) [] hfree hpw
  have hconv : vetr_convert_dataformat (order.map (fun k => (k, val k))) = .ok out := by
    rw [vetr_convert_dataformat_eq_applyWs _ hconf]
    exact hok
  have hkiff : ∀ k, k ∈ assocKeys out ↔ k ∈ vetr_out_sections := by
    intro k
    rw [hkeys k]
    have hm : List.Perm
        ((inputWrites (order.map (fun k => (k, val k)))).map (fun w => wsec w.1))
        (vetr_canonical_locs.map wsec) := by
      have hq := hperm.map (fun w : WLoc × VetrVal α × String => wsec w.1)
      rw [inputWrites_canonical_sections val adVal eolVal mcpVal scaleVal] at hq
      exact hq
    simp only [assocKeys, List.map_nil, List.not_mem_nil, false_or]
    rw [hm.mem_iff]
    exact mem_canonical_sections_iff k
  refine ⟨out, hconv, hkiff, by decide,
    fun h => (by decide : ¬("apic" ∈ vetr_out_sections)) ((hkiff "apic").mp h),
    fun h => (by decide : ¬("apps" ∈ vetr_out_sections)) ((hkiff "apps").mp h),
    hvals (WLoc.top "meta", val "meta", "meta")
      (direct_write_mem "meta" horder (by decide) rfl),
    hvals (WLoc.fld "admin" "firmwareVersion", val "firmware", "firmware")
      (direct_write_mem "firmware" horder (by decide) rfl),
    hvals (WLoc.fld "system" "encryptedBackups", adVal "encryptedBackups", "encryptedBackups")
      (nested_write_mem [("encryptedBackups", "system_encryptedBackups")] "encryptedBackups"
        horder (by decide) hadmin (hadP.mem_iff.mpr (by decide)) rfl rfl),
    hvals (WLoc.fld "stats" "fabric", val "fabricStats", "fabricStats")
      (direct_write_mem "fabricStats" horder (by decide) rfl),
    hvals (WLoc.fld "eol" "apic", eolVal "apic", "apic")
      (nested_write_mem [("apic", "eol_apic")] "apic"
        horder (by decide) heol (heolP.mem_iff.mpr (by decide)) rfl rfl),
    hvals (WLoc.fld "system" "epLoopProtection", val "epLoopProtection", "epLoopProtection")
      (direct_write_mem "epLoopProtection" horder (by decide) rfl),
    hvals (WLoc.fld "system" "rogueEPControl", val "rogueEPControl", "rogueEPControl")
      (direct_write_mem "rogueEPControl" horder (by decide) rfl),
    hvals (WLoc.fld "system" "ipAging", val "ipAging", "ipAging")
      (direct_write_mem "ipAging" horder (by decide) rfl),
    hvals (WLoc.fld "system" "remoteEPlearning", val "remoteEPlearning", "remoteEPlearning")
      (direct_write_mem "remoteEPlearning" horder (by decide) rfl),
    hvals (WLoc.fld "system" "enforceSubnetCheck", val "enforceSubnetCheck", "enforceSubnetCheck")
      (direct_write_mem "enforceSubnetCheck" horder (by decide) rfl),
    hvals (WLoc.fld "system" "portTracking", val "portTracking", "portTracking")
      (direct_write_mem "portTracking" horder (by decide) rfl),
    hvals (WLoc.fld "fabric" "coopStrict", val "coopStrict", "coopStrict")
      (direct_write_mem "coopStrict" horder (by decide) rfl),
    hvals (WLoc.fld "fabric" "bfdFabricInt", val "bfdFabricInt", "bfdFabricInt")
      (direct_write_mem "bfdFabricInt" horder (by decide) rfl),
    hvals (WLoc.fld "system" "domainValidation", val "domainValidation", "domainValidation")
      (direct_write_mem "domainValidation" horder (by decide) rfl),
    hvals (WLoc.fld "access" "mcpInterface", mcpVal "interface", "interface")
      (nested_write_mem [("interface", "access_mcpInterface"), ("global", "fabric_mcpGlobal")]
        "interface" horder (by decide) hmcp (hmcpP.mem_iff.mpr (by decide)) rfl rfl),
    hvals (WLoc.fld "fabric" "mcpGlobal", mcpVal "global", "global")
      (nested_write_mem [("interface", "access_mcpInterface"), ("global", "fabric_mcpGlobal")]
        "global" horder (by decide) hmcp (hmcpP.mem_iff.mpr (by decide)) rfl rfl),
    hvals (WLoc.fld "fabric" "dom", val "dom", "dom")
      (direct_write_mem "dom" horder (by decide) rfl),
    hvals (WLoc.fld "stats" "multipod", val "multipod", "multipod")
      (direct_write_mem "multipod" horder (by decide) rfl),
    hvals (WLoc.fld "fabric" "isisMetric", val "isisMetric", "isisMetric")
      (direct_write_mem "isisMetric" horder (by decide) rfl),
    hvals (WLoc.fld "tenant" "stats", val "tenantStats", "tenantStats")
      (direct_write_mem "tenantStats" horder (by decide) rfl),
    hvals (WLoc.fld "tenant" "bdStats", val "bdStats", "bdStats")
      (direct_write_mem "bdStats" horder (by decide) rfl),
    hvals (WLoc.fld "tenant" "ingressPolicyEnforcement", val "ingressPolicyEnforcement", "ingressPolicyEnforcement")
      (direct_write_mem "ingressPolicyEnforcement" horder (by decide) rfl),
    hvals (WLoc.fld "tenant" "vzAny", val "vzAny", "vzAny")
      (direct_write_mem "vzAny" horder (by decide) rfl),
    hvals (WLoc.fld "tenant" "l3outRedundancy", val "l3outRedundancy", "l3outRedundancy")
      (direct_write_mem "l3outRedundancy" horder (by decide) rfl),
    hvals (WLoc.fld "scale" "fabric", scaleVal "fabric", "fabric")
      (nested_write_mem [("fabric", "scale_fabric"), ("guide", "scale_guide"), ("switch", "scale_switch")]
        "fabric" horder (by decide) hscale (hscaleP.mem_iff.mpr (by decide)) rfl rfl),
    hvals (WLoc.fld "scale" "guide", scaleVal "guide", "guide")
      (nested_write_mem [("fabric", "scale_fabric"), ("guide", "scale_guide"), ("switch", "scale_switch")]
        "guide" horder (by decide) hscale (hscaleP.mem_iff.mpr (by decide)) rfl rfl),
    hvals (WLoc.fld "scale" "switch", scaleVal "switch", "switch")
      (nested_write_mem [("fabric", "scale_fabric"), ("guide", "scale_guide"), ("switch", "scale_switch")]
        "switch" horder (by decide) hscale (hscaleP.mem_iff.mpr (by decide)) rfl rfl),
    hvals (WLoc.top "health", val "health", "health")
      (direct_write_mem "health" horder (by decide) rfl),
    hvals (WLoc.fld "faults" "ssd", val "ssd", "ssd")
      (direct_write_mem "ssd" horder (by decide) rfl)⟩

/-- Witness for `vetr_convert_dataformat_legacy_result`: a concrete
legacy input with the 26 keys in reversed order and the `mcp` and `scale`
children shuffled still migrates successfully with every payload at its
canonical location. -/
theorem vetr_convert_dataformat_legacy_result_witness :
    (List.Perm c1_wit_order vetr_2_0_0_keys
      ∧ List.Perm ["global", "interface"] ["interface", "global"]
      ∧ List.Perm ["switch", "fabric", "guide"] ["fabric", "guide", "switch"]
      ∧ c1_wit_val "admin" = .dict (["encryptedBackups"].map (fun c => (c, c1_wit_adVal c)))
      ∧ c1_wit_val "mcp" = .dict (["global", "interface"].map (fun c => (c, c1_wit_mcpVal c))))
    ∧ ∃ out, vetr_convert_dataformat (c1_wit_order.map (fun k => (k, c1_wit_val k))) = .ok out
        ∧ (∀ k, k ∈ assocKeys out ↔ k ∈ vetr_out_sections)
        ∧ "apic" ∉ assocKeys out
        ∧ dictGet out "meta" = some (c1_wit_val "meta")
        ∧ vetr_section_field out "access" "mcpInterface" = some (c1_wit_mcpVal "interface")
        ∧ vetr_section_field out "scale" "guide" = some (c1_wit_scaleVal "guide") := by
  refine ⟨⟨by decide, by decide, by decide, rfl, rfl⟩, ?_⟩
  obtain ⟨out, h1, h2, h3, h4, h5, h6, h7, h8, h9, h10, h11, h12, h13, h14, h15, h16,
      h17, h18, h19, h20, h21, h22, h23, h24, h25, h26, h27, h28, h29, h30, h31, h32,
      h33, h34⟩ :=
    vetr_convert_dataformat_legacy_result c1_wit_order ["encryptedBackups"] ["apic"]
      ["global", "interface"] ["switch", "fabric", "guide"]
      c1_wit_val c1_wit_adVal c1_wit_eolVal c1_wit_mcpVal c1_wit_scaleVal
      (by decide) (by decide) (by decide) (by decide) (by decide)
      rfl rfl rfl rfl
  exact ⟨out, h1, h2, h4, h6, h20, h31⟩

/-- C2 (amended): the combined-findings merge (`copy` + `update` +
enablement flags) never fails; when the per-source mappings have no
overlapping finding keys the merge of the finding dictionaries is their
exact union (concatenation), and when a finding key occurs in both
sources the later-merged source's value silently overwrites the earlier
one — no duplicate-key detection or `MappingConflictError` exists at this
merge step.  The flag writes leave every other key's value unchanged. -/
theorem combine_findings_merge_semantics {α : Type}
    (vetr nae : List (String × MergeVal α))
    (hnd : (assocKeys nae).Nodup) :
    ((∀ k ∈ assocKeys nae, k ∉ assocKeys vetr) → dictUpdate vetr nae = vetr ++ nae)
    ∧ (∀ k ∈ assocKeys nae, dictGet (dictUpdate vetr nae) k = dictGet nae k)
    ∧ (∀ k, k ≠ "vetR_analysis_enabled" → k ≠ "nae_analysis_enabled" →
        k ≠ "ssd_analysis_enabled" →
        dictGet (combine_findings_vetr_nae vetr nae) k = dictGet (dictUpdate vetr nae) k) := by
  refine ⟨fun hdisj => dictUpdate_of_disjoint nae vetr hnd hdisj,
    fun k hk => dictGet_dictUpdate_mem nae vetr k hnd hk,
    fun k h1 h2 h3 => ?_⟩
  unfold combine_findings_vetr_nae
  rw [dictGet_dictSet_ne _ _ h3, dictGet_dictSet_ne _ _ h2, dictGet_dictSet_ne _ _ h1]

/-- Witness for C2: two concrete disjoint singleton finding mappings
merge to their exact union. -/
theorem combine_findings_merge_semantics_witness :
    ((assocKeys [("nae_b", MergeVal.record (1 : Nat))]).Nodup
    ∧ (∀ k ∈ assocKeys [("nae_b", MergeVal.record (1 : Nat))],
        k ∉ assocKeys [("vetR_a", MergeVal.record (0 : Nat))]))
    ∧ dictUpdate [("vetR_a", MergeVal.record (0 : Nat))] [("nae_b", MergeVal.record 1)]
      = [("vetR_a", MergeVal.record 0), ("nae_b", MergeVal.record 1)] :=
  ⟨⟨by decide, by decide⟩,
    (combine_findings_merge_semantics [("vetR_a", MergeVal.record (0 : Nat))]
      [("nae_b", MergeVal.record 1)] (by decide)).1 (by decide)⟩

/-- C2 counterexample: when the same finding key is present in both
source mappings the merge silently keeps the later source's value and
returns normally — it does not fail with any duplicate-key error, and the
earlier value is lost. -/
theorem combine_findings_overwrite_counterexample :
    combine_findings_vetr_nae [("x", MergeVal.record (0 : Nat))] [("x", MergeVal.record 1)]
      = [("x", MergeVal.record 1), ("vetR_analysis_enabled", MergeVal.flag true),
         ("nae_analysis_enabled", MergeVal.flag true), ("ssd_analysis_enabled", MergeVal.flag false)]
    ∧ dictGet
        (combine_findings_vetr_nae [("x", MergeVal.record (0 : Nat))] [("x", MergeVal.record 1)])
        "x" = some (MergeVal.record 1)
    ∧ some (MergeVal.record 1) ≠ some (MergeVal.record (0 : Nat)) :=
  ⟨rfl, rfl, by decide⟩

/-- C3: the variant-B (ndi) job monitor never terminates on a
persistently absent job.  The source sets `__max_retry_count = 6` but
never increments `__retry_count`, so the guard `__retry_count <
__max_retry_count` is always `0 < 6` and the not-found branch retries
forever: after any number of consecutive absent polls — in particular
after 7 — the loop is still polling rather than failing fatally.  (A job
appearing with status COMPLETE after 6 absent polls does succeed.) -/
theorem ndi_monitor_absent_polls_forever :
    (∀ n, ndi_monitor_run 0 (List.replicate n none) = .stillPolling 0)
    ∧ ndi_monitor_run 0 (List.replicate 7 none) = .stillPolling 0
    ∧ ndi_monitor_run 0 (List.replicate 6 none ++ [some "COMPLETE"]) = .success := by
  have h : ∀ n, ndi_monitor_run 0 (List.replicate n none) = .stillPolling 0 := by
    intro n
    induction n with
    | zero => rfl
    | succ n ih =>
        rw [List.replicate_succ]
        show ndi_monitor_run 0 (List.replicate n none) = .stillPolling 0
        exact ih
  exact ⟨h, h 7, rfl⟩

set_option maxRecDepth 8000 in
/-- C5: with a declared total of 250 results and page size 100 the code
computes the correct page count `ceil(250/100) = 3`, but requests only
the offsets 0 and 100 — never 200 — because the page counter is
incremented once per entry (inside the per-entry for loop) instead of
once per page, so after the second page it jumps from 1 to 101 and the
loop exits; the 50 entries of the third page are missed. -/
theorem ndi_pagination_counter_bug :
    pyCeilDiv 250 100 = 3
    ∧ ndi_get_smart_events_by_fabric_name (some 250) c5_server 10
      = some ([0, 100], List.range' 0 200)
    ∧ 200 ∈ c5_server 200
    ∧ 200 ∉ List.range' 0 200
    ∧ ([0, 100] : List Nat) ≠ [0, 100, 200] :=
  ⟨by decide, by decide, by decide, by decide, by decide⟩

/-! ### SSD analyzer lemmas -/

theorem mem_dictSet {d : List (String × α)} {k : String} {v : α} {kv : String × α}
    (h : kv ∈ dictSet d k v) : kv ∈ d ∨ kv = (k, v) := by
  induction d with
  | nil => exact Or.inr (List.mem_singleton.mp h)
  | cons kv1 rest ih =>
      obtain ⟨k', v'⟩ := kv1
      by_cases hk : k' = k
      · rw [dictSet_cons_eq hk] at h
        rcases List.mem_cons.mp h with h1 | h1
        · exact Or.inr h1
        · exact Or.inl (List.mem_cons_of_mem _ h1)
      · rw [dictSet_cons_ne hk] at h
        rcases List.mem_cons.mp h with h1 | h1
        · exact Or.inl (h1 ▸ List.mem_cons_self _ _)
        · rcases ih h1 with h2 | h2
          · exact Or.inl (List.mem_cons_of_mem _ h2)
          · exact Or.inr h2

theorem ssd_metric_usages_cons_sub {l : SsdLine} {rest : List SsdLine} {u : ℚ}
    (hu : u ∈ ssd_metric_usages rest) : u ∈ ssd_metric_usages (l :: rest) := by
  cases l with
  | node id => exact hu
  | nodeNoise => exact hu
  | model m => exact hu
  | blank => exact hu
  | metric d i x => exact List.mem_cons_of_mem _ hu
  | other => exact hu

/-- If one threshold evaluation preserves a property `P` for every usage
value satisfying `Q`, then finalizing an accumulator whose stored usage
values satisfy `Q` preserves `P`. -/
theorem ssd_finalize_preserve (Q : ℚ → Prop) (P : SsdAction → Prop)
    (hstep : ∀ node u act, Q u → P act → P (ssd_process_entry node u act))
    (u : SsdUsage) (hu : ∀ kv ∈ u.metrics, Q kv.2) :
    ∀ act, P act → P (ssd_finalize u act) := by
  suffices hgen : ∀ (l : List (String × ℚ)), (∀ kv ∈ l, Q kv.2) → ∀ act, P act →
      P (l.foldl (fun a kv => ssd_process_entry u.node kv.2 a) act) from
    fun act ha => hgen u.metrics hu act ha
  intro l
  induction l with
  | nil => exact fun _ act ha => ha
  | cons kv rest ih =>
      intro hl act ha
      rw [List.foldl_cons]
      exact ih (fun x hx => hl x (List.mem_cons_of_mem _ hx)) _
        (hstep u.node kv.2 act (hl kv (List.mem_cons_self _ _)) ha)

/-- The main-loop invariant: the aggregate record keeps property `P` and
all pending usage entries keep property `Q`. -/
theorem ssd_foldl_preserve (Q : ℚ → Prop) (P : SsdAction → Prop)
    (hstep : ∀ node u act, Q u → P act → P (ssd_process_entry node u act)) :
    ∀ (lines : List SsdLine) (st : Option SsdUsage × SsdAction),
      (∀ u ∈ ssd_metric_usages lines, Q u) →
      (∀ kv ∈ optMetrics st.1, Q kv.2) →
      P st.2 →
      P (lines.foldl ssd_step st).2
        ∧ (∀ kv ∈ optMetrics (lines.foldl ssd_step st).1, Q kv.2) := by
  intro lines
  induction lines with
  | nil => exact fun st _ h2 h3 => ⟨h3, h2⟩
  | cons l rest ih =>
      intro st hl hst hP
      obtain ⟨os, act⟩ := st
      rw [List.foldl_cons]
      have hrest : ∀ u ∈ ssd_metric_usages rest, Q u :=
        fun u hu => hl u (ssd_metric_usages_cons_sub hu)
      cases l with
      | node id =>
          cases os with
          | some u =>
              exact ih _ hrest (by intro kv hkv; exact absurd hkv (List.not_mem_nil kv))
                (ssd_finalize_preserve Q P hstep u hst act hP)
          | none =>
              exact ih _ hrest (by intro kv hkv; exact absurd hkv (List.not_mem_nil kv)) hP
      | nodeNoise =>
          cases os with
          | some u =>
              exact ih _ hrest (by intro kv hkv; exact absurd hkv (List.not_mem_nil kv))
                (ssd_finalize_preserve Q P hstep u hst act hP)
          | none =>
              exact ih _ hrest (by intro kv hkv; exact absurd hkv (List.not_mem_nil kv)) hP
      | model m =>
          cases os with
          | some u => exact ih _ hrest hst hP
          | none => exact ih _ hrest hst hP
      | blank => exact ih _ hrest hst hP
      | metric d i x =>
          cases os with
          | some u =>
              refine ih _ hrest ?_ hP
              intro kv hkv
              rcases mem_dictSet hkv with h1 | h1
              · exact hst kv h1
              · rw [h1]
                exact hl x (List.mem_cons_self _ _)
          | none => exact ih _ hrest hst hP
      | other => exact ih _ hrest hst hP

/-- Invariant transfer to the flushed final aggregate record. -/
theorem ssd_final_action_preserve (Q : ℚ → Prop) (P : SsdAction → Prop)
    (hstep : ∀ node u act, Q u → P act → P (ssd_process_entry node u act))
    (lines : List SsdLine)
    (hQ : ∀ u ∈ ssd_metric_usages lines, Q u)
    (hP0 : P ssd_init_action) : P (ssd_final_action lines) := by
  have h := ssd_foldl_preserve Q P hstep lines (none, ssd_init_action) hQ
    (by intro kv hkv; exact absurd hkv (List.not_mem_nil kv)) hP0
  unfold ssd_final_action
  rcases hs : lines.foldl ssd_step (none, ssd_init_action) with ⟨os, act⟩
  rw [hs] at h
  cases os with
  | none => exact h.1
  | some u => exact ssd_finalize_preserve Q P hstep u (fun kv hkv => h.2 kv hkv) act h.1

theorem ssd_process_entry_below {node : String} {u : ℚ} {act : SsdAction}
    (h : u < ssd_thresholds_major) : ssd_process_entry node u act = act := by
  have h90 : ¬ u ≥ ssd_thresholds_critical :=
    not_le.mpr (h.trans_le (by norm_num [ssd_thresholds_major, ssd_thresholds_critical]))
  have h80 : ¬ u ≥ ssd_thresholds_major := not_le.mpr h
  simp [ssd_process_entry, h90, h80]

theorem nodup_append_singleton {l : List String} {a : String}
    (hl : l.Nodup) (ha : a ∉ l) : (l ++ [a]).Nodup := by
  simp [List.nodup_append, hl, ha]

theorem ssd_process_entry_nodup {node : String} {u : ℚ} {act : SsdAction}
    (h : act.critical.Nodup ∧ act.major.Nodup) :
    (ssd_process_entry node u act).critical.Nodup
      ∧ (ssd_process_entry node u act).major.Nodup := by
  obtain ⟨hc, hm⟩ := h
  by_cases h90 : u ≥ ssd_thresholds_critical
  · by_cases h80 : u ≥ ssd_thresholds_major
    · by_cases hcin : node ∈ act.critical
      · simp only [ssd_process_entry, if_pos h90, if_pos h80, if_pos hcin]
        refine ⟨hc, ?_⟩
        split
        · next hcond => exact nodup_append_singleton hm hcond.1
        · exact hm
      · simp only [ssd_process_entry, if_pos h90, if_pos h80, if_neg hcin]
        refine ⟨nodup_append_singleton hc hcin, ?_⟩
        split
        · next hcond => exact nodup_append_singleton hm hcond.1
        · exact hm
    · exact absurd (le_trans (by norm_num [ssd_thresholds_major, ssd_thresholds_critical]) h90) h80
  · by_cases h80 : u ≥ ssd_thresholds_major
    · simp only [ssd_process_entry, if_neg h90, if_pos h80]
      refine ⟨hc, ?_⟩
      split
      · next hcond => exact nodup_append_singleton hm hcond.1
      · exact hm
    · simp only [ssd_process_entry, if_neg h90, if_neg h80]
      exact ⟨hc, hm⟩

theorem ssd_process_entry_outside {node : String} {u : ℚ} {act : SsdAction}
    (hu : u < ssd_thresholds_major ∨ ssd_thresholds_critical ≤ u)
    (h : act.major = []) : (ssd_process_entry node u act).major = [] := by
  rcases hu with hu | hu
  · rw [ssd_process_entry_below hu, h]
  · have h80 : u ≥ ssd_thresholds_major :=
      le_trans (by norm_num [ssd_thresholds_major, ssd_thresholds_critical]) hu
    have h90 : u ≥ ssd_thresholds_critical := hu
    simp only [ssd_process_entry, if_pos h90, if_pos h80]
    rw [if_neg, h]
    rintro ⟨-, h2⟩
    apply h2
    split
    · next hin => exact hin
    · exact List.mem_append_right _ (List.mem_singleton.mpr rfl)

/-- If the output is the singleton `ssd_faults` finding, its record is
the flushed final aggregate record. -/
theorem ssd_analyze_output_eq_final {lines : List SsdLine} {act : SsdAction}
    (h : ssd_analyze_output lines = [("ssd_faults", act)]) :
    act = ssd_final_action lines := by
  by_cases hb : (ssd_final_action lines).actionRecommended
  · have h2 : ssd_analyze_output lines = [("ssd_faults", ssd_final_action lines)] := by
      unfold ssd_analyze_output
      rw [if_pos hb]
    have h3 := h2.symm.trans h
    exact ((Prod.mk.injEq _ _ _ _).mp (List.cons_eq_cons.mp h3).1).2.symm
  · have h2 : ssd_analyze_output lines = [] := by
      unfold ssd_analyze_output
      rw [if_neg hb]
    rw [h2] at h
    exact absurd h (by simp)

/-- C4 (amended): the analyzer does not produce one finding per
metric-id; it aggregates all threshold crossings of all metrics into a
single finding keyed `ssd_faults` whose record holds the global critical
and major node lists.  The result is empty whenever no metric anywhere
reaches the major threshold, and on the spec's two-node example the
single finding carries critical list `[node-101]` and empty major
list. -/
theorem ssd_analyze_output_aggregate (lines : List SsdLine) :
    (ssd_analyze_output lines = []
      ∨ ∃ act, ssd_analyze_output lines = [("ssd_faults", act)])
    ∧ ((∀ u ∈ ssd_metric_usages lines, u < ssd_thresholds_major) →
        ssd_analyze_output lines = [])
    ∧ ssd_analyze_output ssd_example_input
      = [("ssd_faults", { actionRecommended := true, critical := ["node-101"], major := [] })] := by
  refine ⟨?_, ?_, by decide⟩
  · unfold ssd_analyze_output
    by_cases h : (ssd_final_action lines).actionRecommended
    · exact Or.inr ⟨_, by rw [if_pos h]⟩
    · exact Or.inl (by rw [if_neg h])
  · intro h
    have hfin : ssd_final_action lines = ssd_init_action :=
      ssd_final_action_preserve (fun u => u < ssd_thresholds_major)
        (fun a => a = ssd_init_action)
        (fun node u act hq hp => by rw [ssd_process_entry_below hq, hp])
        lines h rfl
    unfold ssd_analyze_output
    rw [hfin]
    rfl

/-- Witness for C4: a report whose only metric stays below the major
threshold yields the empty result. -/
theorem ssd_analyze_output_aggregate_witness :
    (∀ u ∈ ssd_metric_usages [SsdLine.node "7", SsdLine.metric "CPU" "1" 50],
      u < ssd_thresholds_major)
    ∧ ssd_analyze_output [SsdLine.node "7", SsdLine.metric "CPU" "1" 50] = [] :=
  ⟨by decide, (ssd_analyze_output_aggregate _).2.1 (by decide)⟩

/-- C4 counterexample: on the spec's own example the analyzer's result
has the single key `ssd_faults` — it contains no `type_1` finding, and
even a node crossing thresholds for two distinct metric-ids produces a
single finding, not one per metric. -/
theorem ssd_analyze_output_per_metric_counterexample :
    ssd_analyze_output ssd_example_input
      = [("ssd_faults", { actionRecommended := true, critical := ["node-101"], major := [] })]
    ∧ assocKeys (ssd_analyze_output ssd_example_input) = ["ssd_faults"]
    ∧ "type_1" ∉ assocKeys (ssd_analyze_output ssd_example_input)
    ∧ (ssd_analyze_output
        [SsdLine.node "103", SsdLine.metric "A" "1" 95, SsdLine.metric "B" "2" 85]).length = 1 :=
  ⟨by decide, by decide, by decide, by decide⟩

/-- C8 (amended): the analyzer never *adds* a node to the major list
while it is already in the critical list; in particular, on any report in
which no metric falls in the major-only band `[80, 90)`, the major list
is empty — a node whose crossings are all critical appears in the
critical list only.  (A node placed in major by an *earlier* major-only
metric, however, stays there when a later metric crosses critical, see
the counterexample.) -/
theorem ssd_critical_only_without_major_band (lines : List SsdLine)
    (h : ∀ u ∈ ssd_metric_usages lines,
      u < ssd_thresholds_major ∨ ssd_thresholds_critical ≤ u) :
    (∀ act, ssd_analyze_output lines = [("ssd_faults", act)] → act.major = [])
    ∧ (∀ (node : String) (u : ℚ) (act : SsdAction), ssd_thresholds_critical ≤ u →
        node ∈ (ssd_process_entry node u act).critical) := by
  constructor
  · intro act hact
    rw [ssd_analyze_output_eq_final hact]
    exact ssd_final_action_preserve
      (fun u => u < ssd_thresholds_major ∨ ssd_thresholds_critical ≤ u)
      (fun a => a.major = [])
      (fun node u act hq hp => ssd_process_entry_outside hq hp)
      lines h rfl
  · intro node u act h90
    have h80 : u ≥ ssd_thresholds_major :=
      le_trans (by norm_num [ssd_thresholds_major, ssd_thresholds_critical]) h90
    have hmem : node ∈ (if node ∈ act.critical then act.critical else act.critical ++ [node]) := by
      split
      · next hin => exact hin
      · exact List.mem_append_right _ (List.mem_singleton.mpr rfl)
    simp only [ssd_process_entry, if_pos (show u ≥ ssd_thresholds_critical from h90), if_pos h80]
    exact hmem

/-- Witness for C8: a single all-critical report satisfies the
hypothesis, and its major list is empty. -/
theorem ssd_critical_only_without_major_band_witness :
    (∀ u ∈ ssd_metric_usages [SsdLine.node "9", SsdLine.metric "Z" "1" 95],
      u < ssd_thresholds_major ∨ ssd_thresholds_critical ≤ u)
    ∧ ssd_analyze_output [SsdLine.node "9", SsdLine.metric "Z" "1" 95]
      = [("ssd_faults", { actionRecommended := true, critical := ["node-9"], major := [] })]
    ∧ ({ actionRecommended := true, critical := ["node-9"], major := [] } : SsdAction).major = [] :=
  ⟨by decide, by decide,
    (ssd_critical_only_without_major_band [SsdLine.node "9", SsdLine.metric "Z" "1" 95]
      (by decide)).1 _ (by decide)⟩

/-- C8 counterexample: node 101 crosses only the major threshold for
metric 1 (85%) and then both thresholds for metric 2 (95%); the node
crossed both thresholds for the same metric (metric 2), yet the output
places it in the major list as well as the critical list. -/
theorem ssd_major_then_critical_counterexample :
    ssd_analyze_output [SsdLine.node "101", SsdLine.metric "X" "1" 85, SsdLine.metric "Y" "2" 95]
      = [("ssd_faults",
          { actionRecommended := true, critical := ["node-101"], major := ["node-101"] })]
    ∧ "node-101" ∈ (ssd_final_action
        [SsdLine.node "101", SsdLine.metric "X" "1" 85, SsdLine.metric "Y" "2" 95]).critical
    ∧ "node-101" ∈ (ssd_final_action
        [SsdLine.node "101", SsdLine.metric "X" "1" 85, SsdLine.metric "Y" "2" 95]).major :=
  ⟨by decide, by decide, by decide⟩

/-- C10 (amended): the analyzer's result is either empty or carries
exactly the single key `ssd_faults`; its critical and major node lists
are each duplicate-free; and threshold evaluation never adds a node that
is already in the critical list to the major list.  The two lists need
not be disjoint, however: a node put in major by an earlier major-only
metric remains there when a later metric crosses critical. -/
theorem ssd_analyze_output_invariants (lines : List SsdLine) :
    (ssd_analyze_output lines = []
      ∨ ∃ act, ssd_analyze_output lines = [("ssd_faults", act)])
    ∧ (∀ act, ssd_analyze_output lines = [("ssd_faults", act)] →
        act.critical.Nodup ∧ act.major.Nodup)
    ∧ (∀ (node : String) (u : ℚ) (act : SsdAction), node ∈ act.critical →
        (ssd_process_entry node u act).major = act.major) := by
  refine ⟨?_, ?_, ?_⟩
  · unfold ssd_analyze_output
    by_cases h : (ssd_final_action lines).actionRecommended
    · exact Or.inr ⟨_, by rw [if_pos h]⟩
    · exact Or.inl (by rw [if_neg h])
  · intro act hact
    rw [ssd_analyze_output_eq_final hact]
    exact ssd_final_action_preserve (fun _ => True)
      (fun a => a.critical.Nodup ∧ a.major.Nodup)
      (fun node u act _ hp => ssd_process_entry_nodup hp)
      lines (fun _ _ => trivial) ⟨List.nodup_nil, List.nodup_nil⟩
  · intro node u act hin
    by_cases h90 : u ≥ ssd_thresholds_critical
    · have hact1 : (if node ∈ act.critical then act.critical else act.critical ++ [node])
          = act.critical := if_pos hin
      by_cases h80 : u ≥ ssd_thresholds_major
      · simp only [ssd_process_entry, if_pos h90, if_pos h80, hact1]
        rw [if_neg]
        rintro ⟨-, h2⟩
        exact h2 hin
      · simp only [ssd_process_entry, if_pos h90, if_neg h80]
    · by_cases h80 : u ≥ ssd_thresholds_major
      · simp only [ssd_process_entry, if_neg h90, if_pos h80]
        rw [if_neg]
        rintro ⟨-, h2⟩
        exact h2 hin
      · simp only [ssd_process_entry, if_neg h90, if_neg h80]

/-- Witness for C10: a single major-only report has duplicate-free
lists. -/
theorem ssd_analyze_output_invariants_witness :
    ssd_analyze_output [SsdLine.node "5", SsdLine.metric "W" "1" 85]
      = [("ssd_faults", { actionRecommended := true, critical := [], major := ["node-5"] })]
    ∧ ([] : List String).Nodup ∧ (["node-5"] : List String).Nodup :=
  ⟨by decide,
    (ssd_analyze_output_invariants [SsdLine.node "5", SsdLine.metric "W" "1" 85]).2.1
      { actionRecommended := true, critical := [], major := ["node-5"] } (by decide)⟩

/-- C10 counterexample: node 202 is first put over only the major
threshold (81% on metric 3) and then over the critical threshold (99% on
metric 4): the final critical and major lists both contain it, so the
two lists are not disjoint. -/
theorem ssd_lists_not_disjoint_counterexample :
    ssd_analyze_output [SsdLine.node "202", SsdLine.metric "A" "3" 81, SsdLine.metric "B" "4" 99]
      = [("ssd_faults",
          { actionRecommended := true, critical := ["node-202"], major := ["node-202"] })]
    ∧ "node-202" ∈ (ssd_final_action
        [SsdLine.node "202", SsdLine.metric "A" "3" 81, SsdLine.metric "B" "4" 99]).critical
    ∧ "node-202" ∈ (ssd_final_action
        [SsdLine.node "202", SsdLine.metric "A" "3" 81, SsdLine.metric "B" "4" 99]).major :=
  ⟨by decide, by decide, by decide⟩

/-! ### Extractor lemmas -/

mutual
theorem getNested_nil_iff (v : PyVal) (key : String) (path : List PyVal) :
    get_nested_dict_entries_containing_key v key path = []
      ↔ pyvalHasKeyDeep v key = false := by
  cases v with
  | str s => simp [get_nested_dict_entries_containing_key, pyvalHasKeyDeep]
  | atom n => simp [get_nested_dict_entries_containing_key, pyvalHasKeyDeep]
  | dict fields =>
      by_cases h : fields.hasKey key
      · simp [get_nested_dict_entries_containing_key, pyvalHasKeyDeep, h]
      · simp [get_nested_dict_entries_containing_key, pyvalHasKeyDeep, h,
          getNestedFields_nil_iff fields key path]
  | list elems =>
      simp [get_nested_dict_entries_containing_key, pyvalHasKeyDeep,
        getNestedElems_nil_iff elems key path]

theorem getNestedFields_nil_iff (fs : PyFields) (key : String) (path : List PyVal) :
    getNestedFields fs key path = [] ↔ fieldsHasKeyDeep fs key = false := by
  cases fs with
  | nil => simp [getNestedFields, fieldsHasKeyDeep]
  | cons k v rest =>
      cases v with
      | str s =>
          simp [getNestedFields, fieldsHasKeyDeep, pyvalHasKeyDeep,
            getNestedFields_nil_iff rest key path]
      | atom n =>
          simp [getNestedFields, fieldsHasKeyDeep, pyvalHasKeyDeep,
            getNestedFields_nil_iff rest key path]
      | dict f2 =>
          simp [getNestedFields, fieldsHasKeyDeep,
            getNested_nil_iff (.dict f2) key (path ++ [.str k]),
            getNestedFields_nil_iff rest key path]
      | list e2 =>
          simp [getNestedFields, fieldsHasKeyDeep,
            getNested_nil_iff (.list e2) key (path ++ [.str k]),
            getNestedFields_nil_iff rest key path]

theorem getNestedElems_nil_iff (es : PyElems) (key : String) (path : List PyVal) :
    getNestedElems es key path = [] ↔ elemsHasKeyDeep es key = false := by
  cases es with
  | nil => simp [getNestedElems, elemsHasKeyDeep]
  | cons d rest =>
      simp [getNestedElems, elemsHasKeyDeep,
        getNested_nil_iff d key (path ++ [d]),
        getNestedElems_nil_iff rest key path]
end

mutual
theorem getNested_length (v : PyVal) (key : String) (path : List PyVal) :
    (get_nested_dict_entries_containing_key v key path).length = numMatches v key := by
  cases v with
  | str s => simp [get_nested_dict_entries_containing_key, numMatches]
  | atom n => simp [get_nested_dict_entries_containing_key, numMatches]
  | dict fields =>
      by_cases h : fields.hasKey key
      · simp [get_nested_dict_entries_containing_key, numMatches, h]
      · simp [get_nested_dict_entries_containing_key, numMatches, h,
          getNestedFields_length fields key path]
  | list elems =>
      simp [get_nested_dict_entries_containing_key, numMatches,
        getNestedElems_length elems key path]

theorem getNestedFields_length (fs : PyFields) (key : String) (path : List PyVal) :
    (getNestedFields fs key path).length = fieldsNumMatches fs key := by
  cases fs with
  | nil => simp [getNestedFields, fieldsNumMatches]
  | cons k v rest =>
      cases v with
      | str s =>
          simp [getNestedFields, fieldsNumMatches, getNestedFields_length rest key path]
      | atom n =>
          simp [getNestedFields, fieldsNumMatches, getNestedFields_length rest key path]
      | dict f2 =>
          simp [getNestedFields, fieldsNumMatches,
            getNested_length (.dict f2) key (path ++ [.str k]),
            getNestedFields_length rest key path]
      | list e2 =>
          simp [getNestedFields, fieldsNumMatches,
            getNested_length (.list e2) key (path ++ [.str k]),
            getNestedFields_length rest key path]

theorem getNestedElems_length (es : PyElems) (key : String) (path : List PyVal) :
    (getNestedElems es key path).length = elemsNumMatches es key := by
  cases es with
  | nil => simp [getNestedElems, elemsNumMatches]
  | cons d rest =>
      simp [getNestedElems, elemsNumMatches,
        getNested_length d key (path ++ [d]),
        getNestedElems_length rest key path]
end

mutual
theorem getNested_sound (v : PyVal) (key : String) (path : List PyVal) :
    ∀ pr ∈ get_nested_dict_entries_containing_key v key path,
      ∃ rel, pr.1 = path ++ rel ∧ Reaches v rel pr.2
        ∧ directlyHasKey pr.2 key = true := by
  cases v with
  | str s => intro pr hpr; simp [get_nested_dict_entries_containing_key] at hpr
  | atom n => intro pr hpr; simp [get_nested_dict_entries_containing_key] at hpr
  | dict fields =>
      by_cases h : fields.hasKey key
      · intro pr hpr
        simp only [get_nested_dict_entries_containing_key, if_pos h,
          List.mem_singleton] at hpr
        refine ⟨[], ?_, ?_, ?_⟩
        · rw [hpr, List.append_nil]
        · rw [hpr]
          exact .refl _
        · rw [hpr]
          exact h
      · intro pr hpr
        simp only [get_nested_dict_entries_containing_key, if_neg h] at hpr
        obtain ⟨k, child, rel, hentry, hpath, hreach, hdir⟩ :=
          getNestedFields_sound fields key path pr hpr
        exact ⟨.str k :: rel, hpath, .intoDict hentry hreach, hdir⟩
  | list elems =>
      intro pr hpr
      obtain ⟨d, rel, hmem, hpath, hreach, hdir⟩ :=
        getNestedElems_sound elems key path pr
          (by simpa [get_nested_dict_entries_containing_key] using hpr)
      exact ⟨d :: rel, hpath, .intoList hmem hreach, hdir⟩

theorem getNestedFields_sound (fs : PyFields) (key : String) (path : List PyVal) :
    ∀ pr ∈ getNestedFields fs key path,
      ∃ k child rel, FieldsEntry fs k child
        ∧ pr.1 = path ++ (PyVal.str k :: rel)
        ∧ Reaches child rel pr.2 ∧ directlyHasKey pr.2 key = true := by
  cases fs with
  | nil => intro pr hpr; simp [getNestedFields] at hpr
  | cons k v rest =>
      intro pr hpr
      rcases List.mem_append.mp (by simpa [getNestedFields] using hpr) with h1 | h1
      · cases v with
        | str s => exact absurd h1 (List.not_mem_nil pr)
        | atom n => exact absurd h1 (List.not_mem_nil pr)
        | dict f2 =>
            obtain ⟨rel, hpath, hreach, hdir⟩ :=
              getNested_sound (.dict f2) key (path ++ [.str k]) pr h1
            exact ⟨k, .dict f2, rel, .head k _ rest, by rw [hpath]; simp, hreach, hdir⟩
        | list e2 =>
            obtain ⟨rel, hpath, hreach, hdir⟩ :=
              getNested_sound (.list e2) key (path ++ [.str k]) pr h1
            exact ⟨k, .list e2, rel, .head k _ rest, by rw [hpath]; simp, hreach, hdir⟩
      · obtain ⟨k', child, rel, hentry, hpath, hreach, hdir⟩ :=
          getNestedFields_sound rest key path pr h1
        exact ⟨k', child, rel, .tail k v hentry, hpath, hreach, hdir⟩

theorem getNestedElems_sound (es : PyElems) (key : String) (path : List PyVal) :
    ∀ pr ∈ getNestedElems es key path,
      ∃ d rel, ElemsMem es d ∧ pr.1 = path ++ (d :: rel)
        ∧ Reaches d rel pr.2 ∧ directlyHasKey pr.2 key = true := by
  cases es with
  | nil => intro pr hpr; simp [getNestedElems] at hpr
  | cons d rest =>
      intro pr hpr
      rcases List.mem_append.mp (by simpa [getNestedElems] using hpr) with h1 | h1
      · obtain ⟨rel, hpath, hreach, hdir⟩ := getNested_sound d key (path ++ [d]) pr h1
        exact ⟨d, rel, .head d rest, by rw [hpath]; simp, hreach, hdir⟩
      · obtain ⟨d', rel, hmem, hpath, hreach, hdir⟩ :=
          getNestedElems_sound rest key path pr h1
        exact ⟨d', rel, .tail d hmem, hpath, hreach, hdir⟩
end

theorem getNestedFields_attrib (fs : PyFields) (key : String) (path : List PyVal) :
    ∀ pr ∈ getNestedFields fs key path,
      ∃ k v1 rel, FieldsEntry fs k v1 ∧ pr.1 = path ++ (PyVal.str k :: rel)
        ∧ pr ∈ get_nested_dict_entries_containing_key v1 key (path ++ [PyVal.str k]) := by
  cases fs with
  | nil => intro pr hpr; simp [getNestedFields] at hpr
  | cons k v rest =>
      intro pr hpr
      rcases List.mem_append.mp (by simpa [getNestedFields] using hpr) with h1 | h1
      · cases v with
        | str s => exact absurd h1 (List.not_mem_nil pr)
        | atom n => exact absurd h1 (List.not_mem_nil pr)
        | dict f2 =>
            obtain ⟨rel, hpath, -, -⟩ :=
              getNested_sound (.dict f2) key (path ++ [.str k]) pr h1
            exact ⟨k, .dict f2, rel, .head k _ rest, by rw [hpath]; simp, h1⟩
        | list e2 =>
            obtain ⟨rel, hpath, -, -⟩ :=
              getNested_sound (.list e2) key (path ++ [.str k]) pr h1
            exact ⟨k, .list e2, rel, .head k _ rest, by rw [hpath]; simp, h1⟩
      · obtain ⟨k', v1, rel, hentry, hpath, hmem⟩ := getNestedFields_attrib rest key path pr h1
        exact ⟨k', v1, rel, .tail k v hentry, hpath, hmem⟩

theorem getNestedElems_attrib (es : PyElems) (key : String) (path : List PyVal) :
    ∀ pr ∈ getNestedElems es key path,
      ∃ d rel, ElemsMem es d ∧ pr.1 = path ++ (d :: rel)
        ∧ pr ∈ get_nested_dict_entries_containing_key d key (path ++ [d]) := by
  cases es with
  | nil => intro pr hpr; simp [getNestedElems] at hpr
  | cons d rest =>
      intro pr hpr
      rcases List.mem_append.mp (by simpa [getNestedElems] using hpr) with h1 | h1
      · obtain ⟨rel, hpath, -, -⟩ := getNested_sound d key (path ++ [d]) pr h1
        exact ⟨d, rel, .head d rest, by rw [hpath]; simp, h1⟩
      · obtain ⟨d', rel, hmem, hpath, hmem2⟩ := getNestedElems_attrib rest key path pr h1
        exact ⟨d', rel, .tail d hmem, hpath, hmem2⟩

theorem fieldsEntry_key_mem {fs : PyFields} {k : String} {v : PyVal}
    (h : FieldsEntry fs k v) : k ∈ fieldsKeys fs := by
  induction h with
  | head k v rest => exact List.mem_cons_self _ _
  | tail k' v' h ih => exact List.mem_cons_of_mem _ ih

mutual
theorem getNested_prefix_free (v : PyVal) (key : String) (path : List PyVal)
    (hwf : pyvalWF v = true) :
    ∀ pr ∈ get_nested_dict_entries_containing_key v key path,
    ∀ pr' ∈ get_nested_dict_entries_containing_key v key path,
      pr.1 <+: pr'.1 → pr.1 = pr'.1 := by
  cases v with
  | str s => intro pr hpr; simp [get_nested_dict_entries_containing_key] at hpr
  | atom n => intro pr hpr; simp [get_nested_dict_entries_containing_key] at hpr
  | dict fields =>
      by_cases h : fields.hasKey key
      · intro pr hpr pr' hpr' _
        simp only [get_nested_dict_entries_containing_key, if_pos h,
          List.mem_singleton] at hpr hpr'
        rw [hpr, hpr']
      · intro pr hpr pr' hpr' hpre
        have hwf2 : (fieldsKeys fields).Nodup ∧ fieldsWF fields = true := by
          simpa [pyvalWF] using hwf
        exact getNestedFields_prefix_free fields key path hwf2.1 hwf2.2 pr
          (by simpa [get_nested_dict_entries_containing_key, h] using hpr) pr'
          (by simpa [get_nested_dict_entries_containing_key, h] using hpr') hpre
  | list elems =>
      intro pr hpr pr' hpr' hpre
      exact getNestedElems_prefix_free elems key path (by simpa [pyvalWF] using hwf) pr
        (by simpa [get_nested_dict_entries_containing_key] using hpr) pr'
        (by simpa [get_nested_dict_entries_containing_key] using hpr') hpre

theorem getNestedFields_prefix_free (fs : PyFields) (key : String) (path : List PyVal)
    (hnd : (fieldsKeys fs).Nodup) (hwf : fieldsWF fs = true) :
    ∀ pr ∈ getNestedFields fs key path,
    ∀ pr' ∈ getNestedFields fs key path,
      pr.1 <+: pr'.1 → pr.1 = pr'.1 := by
  cases fs with
  | nil => intro pr hpr; simp [getNestedFields] at hpr
  | cons k v rest =>
      have hnd' := List.nodup_cons.mp (by simpa [fieldsKeys] using hnd)
      have hwf' : pyvalWF v = true ∧ fieldsWF rest = true := by
        simpa [fieldsWF] using hwf
      intro pr hpr pr' hpr' hpre
      rcases List.mem_append.mp (by simpa [getNestedFields] using hpr) with h1 | h1 <;>
        rcases List.mem_append.mp (by simpa [getNestedFields] using hpr') with h2 | h2
      · cases v with
        | str s => exact absurd h1 (List.not_mem_nil pr)
        | atom n => exact absurd h1 (List.not_mem_nil pr)
        | dict f2 =>
            exact getNested_prefix_free (.dict f2) key (path ++ [.str k]) hwf'.1
              pr h1 pr' h2 hpre
        | list e2 =>
            exact getNested_prefix_free (.list e2) key (path ++ [.str k]) hwf'.1
              pr h1 pr' h2 hpre
      · -- pr from the head child, pr' from the remaining entries: the first
        -- path components are distinct keys, contradicting the prefix.
        exfalso
        obtain ⟨k', v1, rel', hentry, hpath', -⟩ := getNestedFields_attrib rest key path pr' h2
        cases v with
        | str s => exact absurd h1 (List.not_mem_nil pr)
        | atom n => exact absurd h1 (List.not_mem_nil pr)
        | dict f2 =>
            obtain ⟨rel, hpath, -, -⟩ := getNested_sound (.dict f2) key (path ++ [.str k]) pr h1
            rw [hpath, List.append_assoc, List.singleton_append, hpath'] at hpre
            have hk := (List.cons_prefix_cons.mp
              ((List.prefix_append_right_inj path).mp hpre)).1
            exact hnd'.1 (PyVal.str.inj hk ▸ fieldsEntry_key_mem hentry)
        | list e2 =>
            obtain ⟨rel, hpath, -, -⟩ := getNested_sound (.list e2) key (path ++ [.str k]) pr h1
            rw [hpath, List.append_assoc, List.singleton_append, hpath'] at hpre
            have hk := (List.cons_prefix_cons.mp
              ((List.prefix_append_right_inj path).mp hpre)).1
            exact hnd'.1 (PyVal.str.inj hk ▸ fieldsEntry_key_mem hentry)
      · exfalso
        obtain ⟨k', v1, rel', hentry, hpath', -⟩ := getNestedFields_attrib rest key path pr h1
        cases v with
        | str s => exact absurd h2 (List.not_mem_nil pr')
        | atom n => exact absurd h2 (List.not_mem_nil pr')
        | dict f2 =>
            obtain ⟨rel, hpath, -, -⟩ := getNested_sound (.dict f2) key (path ++ [.str k]) pr' h2
            rw [hpath, List.append_assoc, List.singleton_append, hpath'] at hpre
            have hk := (List.cons_prefix_cons.mp
              ((List.prefix_append_right_inj path).mp hpre)).1
            exact hnd'.1 (PyVal.str.inj hk.symm ▸ fieldsEntry_key_mem hentry)
        | list e2 =>
            obtain ⟨rel, hpath, -, -⟩ := getNested_sound (.list e2) key (path ++ [.str k]) pr' h2
            rw [hpath, List.append_assoc, List.singleton_append, hpath'] at hpre
            have hk := (List.cons_prefix_cons.mp
              ((List.prefix_append_right_inj path).mp hpre)).1
            exact hnd'.1 (PyVal.str.inj hk.symm ▸ fieldsEntry_key_mem hentry)
      · exact getNestedFields_prefix_free rest key path hnd'.2 hwf'.2 pr h1 pr' h2 hpre

theorem getNestedElems_prefix_free (es : PyElems) (key : String) (path : List PyVal)
    (hwf : elemsWF es = true) :
    ∀ pr ∈ getNestedElems es key path,
    ∀ pr' ∈ getNestedElems es key path,
      pr.1 <+: pr'.1 → pr.1 = pr'.1 := by
  cases es with
  | nil => intro pr hpr; simp [getNestedElems] at hpr
  | cons d rest =>
      have hwf' : pyvalWF d = true ∧ elemsWF rest = true := by
        simpa [elemsWF] using hwf
      intro pr hpr pr' hpr' hpre
      rcases List.mem_append.mp (by simpa [getNestedElems] using hpr) with h1 | h1 <;>
        rcases List.mem_append.mp (by simpa [getNestedElems] using hpr') with h2 | h2
      · exact getNested_prefix_free d key (path ++ [d]) hwf'.1 pr h1 pr' h2 hpre
      · -- pr from the head element, pr' from a later element: equal first
        -- path components force the same element value, whose result set is
        -- the head's.
        obtain ⟨rel, hpath, -, -⟩ := getNested_sound d key (path ++ [d]) pr h1
        obtain ⟨d', rel', hmem', hpath', hmem2⟩ := getNestedElems_attrib rest key path pr' h2
        have hpre2 := hpre
        rw [hpath, List.append_assoc, List.singleton_append, hpath'] at hpre2
        have hd := (List.cons_prefix_cons.mp
          ((List.prefix_append_right_inj path).mp hpre2)).1
        rw [← hd] at hmem2
        exact getNested_prefix_free d key (path ++ [d]) hwf'.1 pr h1 pr' hmem2 hpre
      · obtain ⟨rel, hpath, -, -⟩ := getNested_sound d key (path ++ [d]) pr' h2
        obtain ⟨d', rel', hmem', hpath', hmem2⟩ := getNestedElems_attrib rest key path pr h1
        have hpre2 := hpre
        rw [hpath, hpath', List.append_assoc, List.singleton_append] at hpre2
        have hd := (List.cons_prefix_cons.mp
          ((List.prefix_append_right_inj path).mp hpre2)).1
        rw [hd] at hmem2
        exact getNested_prefix_free d key (path ++ [d]) hwf'.1 pr hmem2 pr' h2 hpre
      · exact getNestedElems_prefix_free rest key path hwf'.2 pr h1 pr' h2 hpre
end

/-- C6 (amended): for every nested structure and marker key, the
extractor yields no pair exactly when the marker occurs in no nested
mapping; it yields exactly one pair per maximal marker-carrying branch
(matches nested inside a matched record are not yielded — over
duplicate-free dictionaries the yielded paths are prefix-free); every
yielded record directly contains the marker key and is reached from the
root by its path — whose components are the mapping keys and the
*visited sequence elements themselves* (not sequence indices, see the
counterexample) down to, but not including, the matched record. -/
theorem get_nested_dict_entries_spec (v : PyVal) (key : String) :
    (get_nested_dict_entries_containing_key v key [] = []
      ↔ pyvalHasKeyDeep v key = false)
    ∧ (get_nested_dict_entries_containing_key v key []).length = numMatches v key
    ∧ (∀ pr ∈ get_nested_dict_entries_containing_key v key [],
        directlyHasKey pr.2 key = true ∧ Reaches v pr.1 pr.2)
    ∧ (pyvalWF v = true →
        ∀ pr ∈ get_nested_dict_entries_containing_key v key [],
        ∀ pr' ∈ get_nested_dict_entries_containing_key v key [],
          pr.1 <+: pr'.1 → pr.1 = pr'.1) := by
  refine ⟨getNested_nil_iff v key [], getNested_length v key [], ?_,
    fun hwf => getNested_prefix_free v key [] hwf⟩
  intro pr hpr
  obtain ⟨rel, hpath, hreach, hdir⟩ := getNested_sound v key [] pr hpr
  rw [List.nil_append] at hpath
  exact ⟨hdir, hpath ▸ hreach⟩

/-- Example input for the C6 witness: markers in two separate branches,
at depths 1 and 2. -/
def c6_example : PyVal :=
  .dict (.cons "a" (.dict (.cons "rec" (.atom 1) .nil))
    (.cons "b" (.dict (.cons "c" (.dict (.cons "rec" (.atom 2) .nil)) .nil)) .nil))

/-- Witness for C6: on a concrete two-branch input the extractor yields
exactly one pair per branch, and the theorem delivers reachability of
the first yielded record along its path. -/
theorem get_nested_dict_entries_spec_witness :
    (get_nested_dict_entries_containing_key c6_example "rec" []
      = [([PyVal.str "a"], PyVal.dict (.cons "rec" (.atom 1) .nil)),
         ([PyVal.str "b", PyVal.str "c"], PyVal.dict (.cons "rec" (.atom 2) .nil))]
    ∧ numMatches c6_example "rec" = 2
    ∧ pyvalWF c6_example = true)
    ∧ (directlyHasKey (PyVal.dict (.cons "rec" (.atom 1) .nil)) "rec" = true
      ∧ Reaches c6_example [PyVal.str "a"] (PyVal.dict (.cons "rec" (.atom 1) .nil))) :=
  ⟨⟨by decide, by decide, by decide⟩,
    (get_nested_dict_entries_spec c6_example "rec").2.2.1
      ([PyVal.str "a"], PyVal.dict (.cons "rec" (.atom 1) .nil)) (by decide)⟩

/-- C6 counterexample: for a sequence the extractor pushes the visited
element itself onto the path, not the element's index: the single match
inside a one-element list is yielded with path `[<the matched dict>]`,
which is not the index path `[0]` the claim describes. -/
theorem get_nested_path_counterexample :
    get_nested_dict_entries_containing_key
        (.list (.cons (.dict (.cons "m" (.atom 1) .nil)) .nil)) "m" []
      = [([PyVal.dict (.cons "m" (.atom 1) .nil)], PyVal.dict (.cons "m" (.atom 1) .nil))]
    ∧ PyVal.dict (.cons "m" (.atom 1) .nil) ≠ PyVal.atom 0 :=
  ⟨by decide, by decide⟩

/-! ### Summary-table lemmas -/

theorem finding_row_name {item : String} {meta : TemplateMeta}
    {headlines : List String} {r : SummaryRow}
    (h : finding_row item meta headlines = .ok r) : r.name = item := by
  cases headlines with
  | nil => simp [finding_row] at h
  | cons hh t =>
      rw [← Except.ok.inj h]

/-- C9 (amended): every finding entry carrying an error is excluded from
the summary table; an error message starting with one of the four known
prefixes is recorded in the corresponding failure bucket (`Template
missing` by its own check, the other three by an if/elif/elif chain);
but an error message matching none of the four prefixes — in particular
`Template metadata extraction failed`, which `vetr_render_actions`
produces when metadata extraction fails — is recorded in no bucket at
all and is silently dropped. -/
theorem create_findings_summary_table_error_handling :
    (∀ (doc : MainDoc) (item err : String),
        pyStartsWith err "Template missing" = false →
        pyStartsWith err "NDI support missing in template" = false →
        pyStartsWith err "Syntax error in Template" = false →
        pyStartsWith err "Undefined error while rendering template" = false →
        bucket_step doc item err = doc)
    ∧ (∀ (doc : MainDoc) (item err : String),
        pyStartsWith err "Template missing" = true →
        pyStartsWith err "NDI support missing in template" = false →
        pyStartsWith err "Syntax error in Template" = false →
        pyStartsWith err "Undefined error while rendering template" = false →
        bucket_step doc item err
          = { doc with missing_templates := bucketAppend doc.missing_templates item })
    ∧ (∀ (doc : MainDoc) (item err : String),
        pyStartsWith err "Template missing" = false →
        pyStartsWith err "NDI support missing in template" = true →
        bucket_step doc item err
          = { doc with templates_missing_ndi_support :=
                bucketAppend doc.templates_missing_ndi_support item })
    ∧ (∀ (doc : MainDoc) (item err : String),
        pyStartsWith err "Template missing" = false →
        pyStartsWith err "NDI support missing in template" = false →
        pyStartsWith err "Syntax error in Template" = true →
        bucket_step doc item err
          = { doc with syntax_error_templates :=
                bucketAppend doc.syntax_error_templates item })
    ∧ (∀ (doc : MainDoc) (item err : String),
        pyStartsWith err "Template missing" = false →
        pyStartsWith err "NDI support missing in template" = false →
        pyStartsWith err "Syntax error in Template" = false →
        pyStartsWith err "Undefined error while rendering template" = true →
        bucket_step doc item err
          = { doc with undefined_error_templates :=
                bucketAppend doc.undefined_error_templates item })
    ∧ (∀ (item : String) (f : Finding) (rest : List (String × Finding))
          (doc : MainDoc) (table : List SummaryRow) (err : String),
        item ∉ ignore_findings → f.error = some err →
        create_findings_summary_table ((item, f) :: rest) doc table
          = create_findings_summary_table rest (bucket_step doc item err) table)
    ∧ (∀ (findings : List (String × Finding)) (doc : MainDoc)
          (table : List SummaryRow) (doc1 : MainDoc) (table1 : List SummaryRow),
        create_findings_summary_table findings doc table = .ok (doc1, table1) →
        ∀ row ∈ table1, row ∈ table
          ∨ ∃ f, (row.name, f) ∈ findings ∧ f.error = none) := by
  refine ⟨?_, ?_, ?_, ?_, ?_, ?_, ?_⟩
  · intro doc item err h1 h2 h3 h4
    simp [bucket_step, h1, h2, h3, h4]
  · intro doc item err h1 h2 h3 h4
    simp [bucket_step, h1, h2, h3, h4]
  · intro doc item err h1 h2
    simp [bucket_step, h1, h2]
  · intro doc item err h1 h2 h3
    simp [bucket_step, h1, h2, h3]
  · intro doc item err h1 h2 h3 h4
    simp [bucket_step, h1, h2, h3, h4]
  · intro item f rest doc table err hni herr
    simp only [create_findings_summary_table]
    rw [if_neg hni, herr]
  · intro findings
    induction findings with
    | nil =>
        intro doc table doc1 table1 h row hrow
        simp only [create_findings_summary_table, Except.ok.injEq, Prod.mk.injEq] at h
        exact Or.inl (h.2 ▸ hrow)
    | cons kv rest ih =>
        obtain ⟨item, f⟩ := kv
        obtain ⟨ferr, fmeta, fheads⟩ := f
        intro doc table doc1 table1 h row hrow
        by_cases hig : item ∈ ignore_findings
        · simp only [create_findings_summary_table] at h
          rw [if_pos hig] at h
          rcases ih _ _ _ _ h row hrow with h1 | ⟨f1, hf1, he⟩
          · exact Or.inl h1
          · exact Or.inr ⟨f1, List.mem_cons_of_mem _ hf1, he⟩
        · cases ferr with
          | some err =>
              simp only [create_findings_summary_table] at h
              rw [if_neg hig] at h
              rcases ih _ _ _ _ h row hrow with h1 | ⟨f1, hf1, he⟩
              · exact Or.inl h1
              · exact Or.inr ⟨f1, List.mem_cons_of_mem _ hf1, he⟩
          | none =>
              cases fmeta with
              | none =>
                  simp only [create_findings_summary_table] at h
                  rw [if_neg hig] at h
                  rcases ih _ _ _ _ h row hrow with h1 | ⟨f1, hf1, he⟩
                  · exact Or.inl h1
                  · exact Or.inr ⟨f1, List.mem_cons_of_mem _ hf1, he⟩
              | some meta =>
                  simp only [create_findings_summary_table] at h
                  rw [if_neg hig] at h
                  cases hrowr : finding_row item meta fheads with
                  | error e =>
                      rw [hrowr] at h
                      exact absurd h (by simp)
                  | ok r =>
                      rw [hrowr] at h
                      rcases ih _ _ _ _ h row hrow with h1 | ⟨f1, hf1, he⟩
                      · rcases List.mem_append.mp h1 with h2 | h2
                        · exact Or.inl h2
                        · refine Or.inr ⟨⟨none, some meta, fheads⟩, ?_, rfl⟩
                          rw [List.mem_singleton.mp h2, finding_row_name hrowr]
                          exact List.mem_cons_self _ _
                      · exact Or.inr ⟨f1, List.mem_cons_of_mem _ hf1, he⟩

/-- Witness for C9: the metadata-extraction failure message matches none
of the four bucket prefixes, so bucketing leaves every bucket
unchanged. -/
theorem create_findings_summary_table_error_handling_witness :
    (pyStartsWith "Template metadata extraction failed" "Template missing" = false
    ∧ pyStartsWith "Template metadata extraction failed" "NDI support missing in template" = false
    ∧ pyStartsWith "Template metadata extraction failed" "Syntax error in Template" = false
    ∧ pyStartsWith "Template metadata extraction failed" "Undefined error while rendering template" = false)
    ∧ bucket_step main_document_empty "vetR_x" "Template metadata extraction failed"
      = main_document_empty :=
  ⟨⟨by decide, by decide, by decide, by decide⟩,
    create_findings_summary_table_error_handling.1 main_document_empty "vetR_x"
      "Template metadata extraction failed" (by decide) (by decide) (by decide) (by decide)⟩

/-- C9 counterexample: a finding whose error is `Template metadata
extraction failed` (produced by `vetr_render_actions` when metadata
extraction fails) is excluded from the summary table but recorded in
none of the four failure buckets — it is silently dropped, contradicting
the claim that every error-carrying finding is bucketed. -/
theorem summary_table_unbucketed_error_counterexample :
    create_findings_summary_table
        [("vetR_x", { error := some "Template metadata extraction failed",
                      metadata := none, headlines := [] })]
        main_document_empty []
      = .ok (main_document_empty, [])
    ∧ main_document_empty.missing_templates = none
    ∧ main_document_empty.templates_missing_ndi_support = none
    ∧ main_document_empty.syntax_error_templates = none
    ∧ main_document_empty.undefined_error_templates = none :=
  ⟨rfl, rfl, rfl, rfl, rfl⟩

end AciAudit
